import Mathlib

/-!
A verification development for the `lights-out` dark-mode engine
(`src/dynamic.ts`, class `LightsOut`).

The TypeScript source is shallowly embedded below:

* CSS inline declarations (`el.style.color` and friends) are `String`s, with
  `""` denoting "no declaration", exactly as in the CSSOM (`setProperty`
  writes a non-empty value, `removeProperty` yields `""`, and JavaScript
  truthiness tests such as `if (originalColor)` are `≠ ""` tests).
* `el.dataset.x` entries are `Option String` (`delete` yields `none`;
  JavaScript truthiness of a dataset entry is `getD "" ≠ ""`).
* `getComputedStyle` is modelled as "the inline declaration when present,
  otherwise the cascaded (stylesheet-derived) value", which is how the
  cascade resolves the four properties the engine reads.
* The `colord` color-math library is an external collaborator (spec, section 6)
  and is modelled as an abstract oracle `ColorMath` supplying exactly the
  operations the source calls: `colord()` parsing, `darken`, `lighten`,
  `alpha` get/set, `isDark`, `isReadable` (with and without the
  `level: AAA` option) and `toHex`.
* DOM trees (including shadow roots and their stylesheets) are the inductive
  `ENode`; element identity is a numeric `id`, and `Element.isConnected` is
  membership in a connectivity list carried by the ambient context `Ctx`.
* Mutation observers, `performance` marks, `console.log` and the
  `adoptedStyleSheets` arrays are host-document side effects; the engine-side
  bookkeeping the class keeps about them (the `#observers` map keys, the page
  observer binding, the constructed sheet text) is modelled in `Engine`.
-/

namespace LightsOut

/-- Does `pat` occur as a contiguous run in the character list? -/
def hasInfix (pat : List Char) : List Char → Bool
  | [] => pat.isEmpty
  | c :: cs => if pat.isPrefixOf (c :: cs) then true else hasInfix pat cs

/-- Substring occurrence; this models the JavaScript regular-expression
tests for `:hover`, for `border` and for the literal `-gradient(`, which
are plain substring tests. -/
def containsSub (s pat : String) : Bool :=
  hasInfix pat.data s.data

/-- Remove every occurrence of `:hover`, scanning left to right.  The `fuel`
argument only makes the recursion structural; it never runs out when started
at the input length, since each step consumes at least one character. -/
def stripHoverGo : Nat → List Char → List Char
  | 0, l => l
  | _ + 1, [] => []
  | fuel + 1, c :: cs =>
    if ":hover".data.isPrefixOf (c :: cs) then
      stripHoverGo fuel ((c :: cs).drop 6)
    else c :: stripHoverGo fuel cs

/-- `selector.replace` of the global `:hover` pattern with `''`. -/
def stripHover (s : String) : String :=
  String.mk (stripHoverGo s.data.length s.data)

/-- `Set.add` / insertion-ordered map key insertion: append if absent. -/
def addU [DecidableEq α] (l : List α) (a : α) : List α :=
  if a ∈ l then l else l ++ [a]

/-- Fold `addU` over a list of additions (a sequence of `Set.add` calls). -/
def foldAddU [DecidableEq α] (l s : List α) : List α :=
  s.foldl addU l

/-- The abstract interface of the `colord` color library (plus its a11y
plugin), the external color-math collaborator of the engine.  `C` is the
opaque type of `Colord` instances.  `isReadableDefault` is
`colored.isReadable(bg)` (which defaults to level AA), `isReadableAAA` is
`colored.isReadable(bg, { level: 'AAA' })`. -/
structure ColorMath (C : Type) where
  parse : String → C
  darkenBy : C → ℚ → C
  lightenBy : C → ℚ → C
  setAlpha : C → ℚ → C
  getAlpha : C → ℚ
  isDark : C → Bool
  isReadableDefault : C → String → Bool
  isReadableAAA : C → String → Bool
  toHex : C → String

/-- The four inline style declarations the engine reads and writes
(`el.style.color`, `el.style.backgroundColor`, `el.style.borderColor`,
`el.style.backgroundImage`); `""` means "not declared". -/
structure InlineStyle where
  color : String
  backgroundColor : String
  borderColor : String
  backgroundImage : String
deriving DecidableEq, Repr

/-- The cascaded (stylesheet-derived) values of the same four properties,
used by the `getComputedStyle` model when no inline declaration exists. -/
structure BaseStyle where
  color : String
  backgroundColor : String
  borderColor : String
  backgroundImage : String
deriving DecidableEq, Repr

/-- The `dataset` entries the engine touches
(`data-lights-out`, `data-original-color`, `data-original-bg-color`,
`data-original-border-color`, `data-original-bg-image`,
`data-lights-out-gradient`). -/
structure Dataset where
  lightsOut : Option String
  originalColor : Option String
  originalBgColor : Option String
  originalBorderColor : Option String
  originalBgImage : Option String
  lightsOutGradient : Option String
deriving DecidableEq, Repr

/-- A dataset with no entries (a clean, never-themed element). -/
def Dataset.empty : Dataset :=
  ⟨none, none, none, none, none, none⟩

/-- The element-local state an `HTMLElement` carries for the engine:
identity (`id`, modelling JavaScript object identity), `tagName`
(as returned by the DOM, whence the source's `.toLowerCase()` calls),
whether the node is an `HTMLElement` (`instanceof HTMLElement`),
the set of selectors the element matches (`el.matches(sel)` is membership in
`matchedBy`), its inline declarations, cascaded values and dataset. -/
structure Elem where
  id : Nat
  tagName : String
  isHTML : Bool
  matchedBy : List String
  inline : InlineStyle
  base : BaseStyle
  data : Dataset
deriving DecidableEq, Repr

/-- `getComputedStyle(el)` for the four properties the engine reads: the
inline declaration wins over the cascaded value when present. -/
def computedOf (el : Elem) : BaseStyle :=
  { color := if el.inline.color ≠ "" then el.inline.color else el.base.color
    backgroundColor :=
      if el.inline.backgroundColor ≠ "" then el.inline.backgroundColor
      else el.base.backgroundColor
    borderColor :=
      if el.inline.borderColor ≠ "" then el.inline.borderColor
      else el.base.borderColor
    backgroundImage :=
      if el.inline.backgroundImage ≠ "" then el.inline.backgroundImage
      else el.base.backgroundImage }

/-- A rule nested inside a `CSSMediaRule`.  The source only ever inspects one
nesting level — it extracts the `CSSStyleRule`s among `mediaRule.cssRules` —
so one level is modelled. -/
inductive SubRule : Type where
  | style (selectorText cssText : String)
  | other
deriving DecidableEq, Repr

/-- A CSS rule as seen through the CSSOM: a `CSSStyleRule` (with its
`selectorText` and `cssText`), a `CSSMediaRule` (with its nested rule list),
or any other kind of rule. -/
inductive Rule : Type where
  | style (selectorText cssText : String)
  | media (cssRules : List SubRule)
  | unknown
deriving DecidableEq, Repr

/-- Is this nested rule a `CSSStyleRule`? -/
def SubRule.isStyle : SubRule → Bool
  | .style _ _ => true
  | .other => false

/-- Is this rule a `CSSStyleRule` or a `CSSMediaRule`?  (the
`instanceof CSSStyleRule || instanceof CSSMediaRule` filter). -/
def Rule.isStyleOrMedia : Rule → Bool
  | .style _ _ => true
  | .media _ => true
  | .unknown => false

/-- A `CSSStyleSheet` with its `href` (`none` for a constructed or inline
sheet) and its `cssRules`. -/
structure Sheet where
  href : Option String
  rules : List Rule
deriving DecidableEq, Repr

/-- A character matched by the regex character class of digits, comma, dot
and whitespace inside `rgb(...)` and `hsl(...)` function calls. -/
def isTokChar (c : Char) : Bool :=
  c.isDigit || c == ',' || c == '.' || c.isWhitespace

/-- A hexadecimal digit, for hex color literals. -/
def isHexChar (c : Char) : Bool :=
  c.isDigit || ('a' ≤ c && c ≤ 'f') || ('A' ≤ c && c ≤ 'F')

/-- Match the parenthesised tail of a functional color literal: `(`, a run
of digits/commas/dots/whitespace, and a closing `)`.  `pre` is the already
matched function name; returns the matched token and the remaining input. -/
def matchParen (pre : List Char) : List Char → Option (List Char × List Char)
  | [] => none
  | ch :: l3 =>
    if ch = '(' then
      match l3.dropWhile isTokChar with
      | [] => none
      | ch2 :: rest =>
        if ch2 = ')' then
          some (pre ++ '(' :: (l3.takeWhile isTokChar ++ [')']), rest)
        else none
    else none

/-- Match one functional color literal (the `rgba?(...)` / `hsla?(...)`
alternatives of the engine's `#colorValueRgx`): the three name characters,
an optional `a`, then the parenthesised argument list. -/
def matchFnCall (c1 c2 c3 : Char) : List Char → Option (List Char × List Char)
  | a :: b :: c :: l1 =>
    if a = c1 ∧ b = c2 ∧ c = c3 then
      if l1.head? = some 'a' then matchParen [c1, c2, c3, 'a'] (l1.drop 1)
      else matchParen [c1, c2, c3] l1
    else none
  | _ => none

/-- Match one hex color literal: `#` followed by three to eight hex digits
(the greedy semantics of the regex). -/
def matchHex : List Char → Option (List Char × List Char)
  | [] => none
  | ch :: t =>
    if ch = '#' then
      let hx := (t.takeWhile isHexChar).take 8
      if hx.length ≥ 3 then some ('#' :: hx, t.drop hx.length) else none
    else none

/-- One alternative of the engine's `#colorValueRgx`, tried in the regex's
left-to-right order. -/
def matchColorToken (l : List Char) : Option (List Char × List Char) :=
  match matchFnCall 'r' 'g' 'b' l with
  | some r => some r
  | none =>
    match matchFnCall 'h' 's' 'l' l with
    | some r => some r
    | none => matchHex l

theorem matchParen_rest_lt (pre l tok rest : List Char)
    (h : matchParen pre l = some (tok, rest)) : rest.length < l.length := by
  match l with
  | [] => simp [matchParen] at h
  | ch :: l3 =>
    rw [matchParen] at h
    split at h
    · split at h
      · exact absurd h (by simp)
      · rename_i ch2 rest2 hdw
        split at h
        · simp only [Option.some.injEq, Prod.mk.injEq] at h
          obtain ⟨-, rfl⟩ := h
          have hsub : (l3.dropWhile isTokChar).length ≤ l3.length :=
            (List.dropWhile_sublist _).length_le
          rw [hdw] at hsub
          simp only [List.length_cons] at hsub ⊢
          omega
        · exact absurd h (by simp)
    · exact absurd h (by simp)

theorem matchFnCall_rest_lt (c1 c2 c3 : Char) (l tok rest : List Char)
    (h : matchFnCall c1 c2 c3 l = some (tok, rest)) :
    rest.length < l.length := by
  match l with
  | [] => simp [matchFnCall] at h
  | [a] => simp [matchFnCall] at h
  | [a, b] => simp [matchFnCall] at h
  | a :: b :: c :: l1 =>
    rw [matchFnCall] at h
    split at h
    · split at h
      · have := matchParen_rest_lt _ _ _ _ h
        have hd : (l1.drop 1).length ≤ l1.length :=
          (List.drop_sublist _ _).length_le
        simp only [List.length_cons]
        omega
      · have := matchParen_rest_lt _ _ _ _ h
        simp only [List.length_cons]
        omega
    · simp at h

theorem matchHex_rest_lt (l tok rest : List Char)
    (h : matchHex l = some (tok, rest)) : rest.length < l.length := by
  match l with
  | [] => simp [matchHex] at h
  | ch :: t =>
    rw [matchHex] at h
    split at h
    · dsimp only at h
      split at h
      · simp only [Option.some.injEq, Prod.mk.injEq] at h
        obtain ⟨-, rfl⟩ := h
        simp only [List.length_cons, List.length_drop]
        omega
      · exact absurd h (by simp)
    · exact absurd h (by simp)

theorem matchColorToken_rest_lt (l tok rest : List Char)
    (h : matchColorToken l = some (tok, rest)) : rest.length < l.length := by
  rw [matchColorToken] at h
  rcases h1 : matchFnCall 'r' 'g' 'b' l with _ | ⟨t1, r1⟩ <;> rw [h1] at h
  · rcases h2 : matchFnCall 'h' 's' 'l' l with _ | ⟨t2, r2⟩ <;> rw [h2] at h
    · exact matchHex_rest_lt l tok rest h
    · simp only [Option.some.injEq] at h
      injection h with hA hB
      subst hA
      subst hB
      exact matchFnCall_rest_lt 'h' 's' 'l' l _ _ h2
  · simp only [Option.some.injEq] at h
    injection h with hA hB
    subst hA
    subst hB
    exact matchFnCall_rest_lt 'r' 'g' 'b' l _ _ h1

/-- `str.replaceAll(#colorValueRgx, repl)`: scan left to right, replacing
each non-overlapping color literal by `repl` of the matched text.  The
`fuel` argument only makes the recursion structural; by
`matchColorToken_rest_lt` each step consumes at least one character, so
starting the fuel at the input length it never runs out. -/
def scanReplaceGo (repl : String → String) : Nat → List Char → List Char
  | 0, l => l
  | _ + 1, [] => []
  | fuel + 1, ch :: cs =>
    match matchColorToken (ch :: cs) with
    | some (tok, rest) => (repl (String.mk tok)).data ++ scanReplaceGo repl fuel rest
    | none => ch :: scanReplaceGo repl fuel cs

/-- The left-to-right global-regex replacement, at adequate fuel. -/
def scanReplace (repl : String → String) (l : List Char) : List Char :=
  scanReplaceGo repl l.length l

/-- The gradient recoloring of `#darken` (lines 328–336): every embedded
color literal is lightened by 0.7 when dark, darkened by 0.7 otherwise. -/
def replaceColorValues {C : Type} (cm : ColorMath C) (s : String) : String :=
  String.mk (scanReplace
    (fun m =>
      let color := cm.parse m
      if cm.isDark color then cm.toHex (cm.lightenBy color ((7:ℚ)/10))
      else cm.toHex (cm.darkenBy color ((7:ℚ)/10)))
    s.data)

/-- Read a dataset entry as JavaScript does: a missing entry reads as the
falsy `""` (so truthiness of `el.dataset.x` is `getOr x ≠ ""`). -/
def getOr : Option String → String
  | some s => s
  | none => ""

/-- Ambient host context: the color library instance, the set of node ids
currently connected to the document (`Element.isConnected`), the document's
style sheets (`document.styleSheets`) and `window.location.origin`. -/
structure Ctx (C : Type) where
  cm : ColorMath C
  conn : List Nat
  docSheets : List Sheet
  origin : String

/-- The engine-side state of a `LightsOut` instance:

* `isEnabled` — the `#isEnabled` flag;
* `sheetText` — the current text of the constructed `#sheet`
  (`replaceSync` writes it);
* `elements` — the ids in the `#elements` set, in insertion order;
* `observers` — the host-element ids keyed by the `#observers` map,
  in insertion order;
* `shadowRoots` — the host ids of the `#shadowRoots` set;
* `shadowSheets` — the `#shadowSheets` set, in insertion order;
* `hoverColorRules` — the `#hoverColorRules` map as an insertion-ordered
  association list;
* `htmlFilterSet` — the `#htmlFilterSet` in iteration order;
* `pageRoot` — the `#pageRoot` element (its local state);
* `pageRootAlpha` — the `#pageRootAlpha` option;
* `observedRoot` — the id the `#pageObserver` is currently observing
  (`none` when disconnected);
* `preserveHoverBorderColor`, `backgroundColor`, `cssRules` — the
  remaining private fields of the class. -/
structure Engine where
  isEnabled : Bool
  sheetText : String
  elements : List Nat
  observers : List Nat
  shadowRoots : List Nat
  shadowSheets : List Sheet
  hoverColorRules : List (String × Rule)
  htmlFilterSet : List String
  pageRoot : Elem
  pageRootAlpha : ℚ
  observedRoot : Option Nat
  preserveHoverBorderColor : Bool
  backgroundColor : String
  cssRules : String
deriving DecidableEq, Repr

/-- The body of the foreground contrast-repair `while` loop of `#darken`
(lines 291–295): while the color is not readable and fewer than ten attempts
were made, lighten by 0.05 and re-test readability at level AAA.  The `fuel`
argument only makes the recursion structural; whenever
`10 - readableAttempts ≤ fuel` (as at the single call site, with fuel 10 and
zero attempts) the loop can only exit through its own condition, so the
definition agrees with the source's `while` loop. -/
def repairGo {C : Type} (cm : ColorMath C) (darkBgColor : String) :
    Nat → C → Bool → Nat → C × Bool × Nat
  | 0, colored, readable, readableAttempts => (colored, readable, readableAttempts)
  | fuel + 1, colored, readable, readableAttempts =>
    if readable = false ∧ readableAttempts < 10 then
      repairGo cm darkBgColor fuel (cm.lightenBy colored ((5:ℚ)/100))
        (cm.isReadableAAA (cm.lightenBy colored ((5:ℚ)/100)) darkBgColor)
        (readableAttempts + 1)
    else (colored, readable, readableAttempts)

/-- The whole contrast-repair fragment of `#darken` (lines 287–295): the
initial readability test uses `isReadable` with no options (default level),
then the loop runs.  Returns the final color, readability flag and the
number of lightening iterations performed. -/
def repair {C : Type} (cm : ColorMath C) (darkBgColor : String) (c0 : C) :
    C × Bool × Nat :=
  repairGo cm darkBgColor 10 c0 (cm.isReadableDefault c0 darkBgColor) 0

/-- `String.toLowerCase()` on a tag name, character by character. -/
def toLowerStr (s : String) : String :=
  String.mk (s.data.map Char.toLower)

/-- `Array.from(this.#htmlFilterSet).some(selector => el.matches(selector))`
(line 274): does the element match some selector of the filter set? -/
def matchesFilter (g : Engine) (el : Elem) : Bool :=
  g.htmlFilterSet.any fun selector => el.matchedBy.contains selector

/-- The background policy of `#darken` (lines 272–284): when the element's
(lowercased) tag name equals the page root's, force a darkened background at
the configured alpha and cache the first such value in `#backgroundColor`;
otherwise darken the background only when it is not already perceptually
dark.  Returns the updated engine and the `darkBgColor` value. -/
def darkBgOf {C : Type} (cm : ColorMath C) (g : Engine)
    (tagName bgColor : String) : Engine × String :=
  let bgColord := cm.parse bgColor
  if tagName = toLowerStr g.pageRoot.tagName then
    -- Ensure the page root has a non-transparent background color.
    let d := cm.toHex (cm.setAlpha (cm.darkenBy bgColord ((9:ℚ)/10))
      g.pageRootAlpha)
    (if g.backgroundColor = "" then { g with backgroundColor := d } else g, d)
  else if ¬ cm.isDark bgColord then
    (g, cm.toHex (cm.darkenBy bgColord ((9:ℚ)/10)))
  else (g, bgColor)

/-- The border block of `#darken` (lines 309–322): only when the computed
border has positive alpha and no preserved `:hover` border rule matches the
element's selector (with `:hover` stripped) is the inline border-color
snapshotted and darkened from the repaired foreground color. -/
def applyBorder {C : Type} (cm : ColorMath C) (g : Engine) (colored : C)
    (borderColorAlpha : ℚ) (el : Elem) : Elem :=
  if 0 < borderColorAlpha then
    match g.hoverColorRules.find?
        (fun p => el.matchedBy.contains (stripHover p.1)) with
    | some _ => el
    | none =>
      let el :=
        if el.inline.borderColor ≠ "" then
          { el with data.originalBorderColor := some el.inline.borderColor }
        else el
      { el with
        inline.borderColor := cm.toHex (cm.darkenBy colored ((45:ℚ)/100)) }
  else el

/-- The gradient block of `#darken` (lines 324–344): when the computed
background image is a gradient function, snapshot any inline
background-image, write the recolored image and set the gradient marker. -/
def applyGradient {C : Type} (cm : ColorMath C) (bgImage : String)
    (el : Elem) : Elem :=
  if bgImage ≠ "none" ∧ containsSub bgImage "-gradient(" then
    let el :=
      if el.inline.backgroundImage ≠ "" then
        { el with data.originalBgImage := some el.inline.backgroundImage }
      else el
    let el := { el with inline.backgroundImage := replaceColorValues cm bgImage }
    { el with data.lightsOutGradient := some "true" }
  else el

/-- `#darken` (lines 267–351), the per-element dark transform.  Reads the
computed style once, then — unless the element matches the filter set —
computes the dark background (`darkBgOf`), measures the border alpha, runs
the contrast-repair loop, and, when the element is not yet marked themed,
snapshots inline color and background-color, applies the border and gradient
blocks, writes the repaired foreground and dark background inline and sets
the `lightsOut` marker. -/
def darken {C : Type} (cm : ColorMath C) (g : Engine) (el : Elem) :
    Engine × Elem :=
  let computedStyle := computedOf el
  let bgColor := computedStyle.backgroundColor
  let tagName := toLowerStr el.tagName
  if ¬ matchesFilter g el then
    let gd := darkBgOf cm g tagName bgColor
    let g2 := gd.1
    let darkBgColor := gd.2
    let borderColorAlpha := cm.getAlpha (cm.parse computedStyle.borderColor)
    let colored := (repair cm darkBgColor (cm.parse computedStyle.color)).1
    if el.data.lightsOut ≠ some "true" then
      let el1 :=
        if el.inline.color ≠ "" then
          { el with data.originalColor := some el.inline.color }
        else el
      let el2 :=
        if el.inline.backgroundColor ≠ "" then
          { el1 with data.originalBgColor := some el.inline.backgroundColor }
        else el1
      let el3 := applyBorder cm g2 colored borderColorAlpha el2
      let el4 := applyGradient cm computedStyle.backgroundImage el3
      (g2, { el4 with inline.color := cm.toHex colored,
                      inline.backgroundColor := darkBgColor,
                      data.lightsOut := some "true" })
    else (g2, el)
  else (g, el)

/-- `#undarken` (lines 353–389): when the element is marked themed, drop the
marker and restore each snapshotted inline declaration (deleting its dataset
entry), or clear the inline declaration when no snapshot exists; the
background-image is only touched when the gradient marker is present. -/
def undarken (el : Elem) : Elem :=
  if el.data.lightsOut = some "true" then
    let el := { el with data.lightsOut := none }
    let el :=
      if getOr el.data.originalColor ≠ "" then
        { el with inline.color := getOr el.data.originalColor,
                  data.originalColor := none }
      else { el with inline.color := "" }
    let el :=
      if getOr el.data.originalBgColor ≠ "" then
        { el with inline.backgroundColor := getOr el.data.originalBgColor,
                  data.originalBgColor := none }
      else { el with inline.backgroundColor := "" }
    let el :=
      if getOr el.data.originalBorderColor ≠ "" then
        { el with inline.borderColor := getOr el.data.originalBorderColor,
                  data.originalBorderColor := none }
      else { el with inline.borderColor := "" }
    let el :=
      if getOr el.data.lightsOutGradient ≠ "" then
        let el := { el with data.lightsOutGradient := none }
        if getOr el.data.originalBgImage ≠ "" then
          { el with inline.backgroundImage := getOr el.data.originalBgImage,
                    data.originalBgImage := none }
        else { el with inline.backgroundImage := "" }
      else el
    el
  else el

/-- `this.pageRoot = root` (lines 179–189).  The assigned JavaScript value is
`some e` for a DOM element (`e.isHTML` saying whether it is an
`HTMLElement`) and `none` for any non-element value.  The setter throws
before touching any state when the value is not an `HTMLElement`; otherwise
it stores the new root and, when enabled, re-binds the page observer to it.
The returned `Option String` is the thrown error message, if any. -/
def setPageRoot (g : Engine) (root : Option Elem) : Engine × Option String :=
  match root with
  | some e =>
    if e.isHTML then
      let g2 := { g with pageRoot := e }
      (if g2.isEnabled then { g2 with observedRoot := some e.id } else g2, none)
    else (g, some "pageRoot must be an instance of HTMLElement")
  | none => (g, some "pageRoot must be an instance of HTMLElement")

/-- `root instanceof HTMLElement` for the modelled JavaScript value. -/
def isHTMLElementVal : Option Elem → Bool
  | some e => e.isHTML
  | none => false

/-- Invariant of the contrast-repair loop, proved by induction on the
remaining iteration budget: the loop never exceeds ten attempts, it stops
only when the readability flag is set or the budget is spent, a run that
performed no iteration returns its input unchanged, and after at least one
iteration the flag is exactly the AAA readability of the returned color. -/
theorem repairGo_spec {C : Type} (cm : ColorMath C) (bg : String) :
    ∀ (fuel : Nat) (colored : C) (readable : Bool) (attempts : Nat),
      attempts + fuel = 10 →
      attempts ≤ (repairGo cm bg fuel colored readable attempts).2.2 ∧
      (repairGo cm bg fuel colored readable attempts).2.2 ≤ 10 ∧
      ((repairGo cm bg fuel colored readable attempts).2.1 = true ∨
        (repairGo cm bg fuel colored readable attempts).2.2 = 10) ∧
      ((repairGo cm bg fuel colored readable attempts).2.2 = attempts →
        repairGo cm bg fuel colored readable attempts =
          (colored, readable, attempts)) ∧
      (attempts < (repairGo cm bg fuel colored readable attempts).2.2 →
        (repairGo cm bg fuel colored readable attempts).2.1 =
          cm.isReadableAAA (repairGo cm bg fuel colored readable attempts).1 bg) := by
  intro fuel
  induction fuel with
  | zero =>
    intro colored readable attempts hA
    have h10 : attempts = 10 := by omega
    subst h10
    rw [repairGo]
    exact ⟨Nat.le_refl _, Nat.le_refl _, Or.inr rfl, fun _ => rfl,
      fun h => absurd h (Nat.lt_irrefl _)⟩
  | succ k ih =>
    intro colored readable attempts hA
    rw [repairGo]
    by_cases hr : readable = false ∧ attempts < 10
    · rw [if_pos hr]
      have := ih (cm.lightenBy colored ((5:ℚ)/100))
        (cm.isReadableAAA (cm.lightenBy colored ((5:ℚ)/100)) bg) (attempts + 1)
        (by omega)
      obtain ⟨h1, h2, h3, h4, h5⟩ := this
      refine ⟨by omega, h2, h3, ?_, ?_⟩
      · intro hEq
        omega
      · intro hlt
        rcases Nat.lt_or_ge (attempts + 1)
          ((repairGo cm bg k (cm.lightenBy colored ((5:ℚ)/100))
            (cm.isReadableAAA (cm.lightenBy colored ((5:ℚ)/100)) bg)
            (attempts + 1)).2.2) with h | h
        · exact h5 h
        · have hEq : (repairGo cm bg k (cm.lightenBy colored ((5:ℚ)/100))
              (cm.isReadableAAA (cm.lightenBy colored ((5:ℚ)/100)) bg)
              (attempts + 1)).2.2 = attempts + 1 := by omega
          rw [h4 hEq]
    · rw [if_neg hr]
      have hrd : readable = true := by
        rcases readable with - | -
        · exact absurd ⟨rfl, by omega⟩ hr
        · rfl
      exact ⟨Nat.le_refl _, (by omega : attempts ≤ 10), Or.inl hrd, fun _ => rfl,
        fun h => absurd h (Nat.lt_irrefl _)⟩

/-- A small executable instance of the color-math collaborator, used to
evaluate the engine on concrete inputs.  A color is a pair of an integer
value and a rational alpha; the operations satisfy the collaborator's
boundary contract of spec section 6 (in particular AAA readability implies
default-level readability, and `toHex` output is never empty). -/
def toyCm : ColorMath (Int × ℚ) where
  parse s :=
    if s = "transparent" then (0, 0)
    else if s = "dark" then (10, 1)
    else if s = "light" then (200, 1)
    else if s = "mid" then (60, 1)
    else ((s.length : Int) * 7, 1)
  darkenBy c _ := (c.1 - 90, c.2)
  lightenBy c _ := (c.1 + 5, c.2)
  setAlpha c a := (c.1, a)
  getAlpha c := c.2
  isDark c := c.1 < 128
  isReadableDefault c _ := c.1 ≥ 50
  isReadableAAA c _ := c.1 ≥ 500
  toHex c :=
    "#" ++ toString c.1 ++ "/" ++
      (if c.2 = 1 then "o" else if c.2 = 0 then "t" else "p")

/-- A page-root element fixture: a `<div>` with no inline declarations. -/
def rootEl : Elem :=
  { id := 0, tagName := "DIV", isHTML := true, matchedBy := ["div"],
    inline := ⟨"", "", "", ""⟩,
    base := ⟨"basefg", "light", "basebd", "none"⟩,
    data := Dataset.empty }

/-- An engine fixture: freshly constructed state with `rootEl` as page root,
a filter set containing only `script`, and default options. -/
def g0 : Engine :=
  { isEnabled := false, sheetText := "", elements := [], observers := [],
    shadowRoots := [], shadowSheets := [], hoverColorRules := [],
    htmlFilterSet := ["script"], pageRoot := rootEl, pageRootAlpha := 1,
    observedRoot := none, preserveHoverBorderColor := false,
    backgroundColor := "", cssRules := "" }

/-- A `<p>` element with inline color, background-color and a `transparent`
inline border-color, and no dataset entries. -/
def c1El : Elem :=
  { id := 1, tagName := "P", isHTML := true, matchedBy := ["p"],
    inline := ⟨"fgA", "bgA", "transparent", ""⟩,
    base := ⟨"basefg", "light", "basebd", "none"⟩,
    data := Dataset.empty }

/-- A `<p>` element with inline color, background-color and an opaque inline
border-color, and no dataset entries. -/
def c1wEl : Elem :=
  { id := 1, tagName := "P", isHTML := true, matchedBy := ["p"],
    inline := ⟨"fgA", "bgA", "bdA", ""⟩,
    base := ⟨"basefg", "light", "basebd", "none"⟩,
    data := Dataset.empty }

/-- A `<div>` element that is *not* the page root but shares the page root's
tag name, with a perceptually dark computed background. -/
def c3El : Elem :=
  { id := 2, tagName := "DIV", isHTML := true, matchedBy := ["div"],
    inline := ⟨"", "dark", "", ""⟩,
    base := ⟨"basefg", "light", "basebd", "none"⟩,
    data := Dataset.empty }

/-- A `<script>` element, which matches the `script` entry of the filter
set of `g0`. -/
def scriptEl : Elem :=
  { id := 3, tagName := "SCRIPT", isHTML := true, matchedBy := ["script"],
    inline := ⟨"sc", "sb", "sbd", ""⟩,
    base := ⟨"basefg", "light", "basebd", "none"⟩,
    data := Dataset.empty }

/-- An `<a>` element with an opaque inline border-color that matches the
selector (stripped of `:hover`) of a preserved hover border rule. -/
def c10El : Elem :=
  { id := 4, tagName := "A", isHTML := true, matchedBy := ["a"],
    inline := ⟨"fgA", "bgA", "bdA", ""⟩,
    base := ⟨"basefg", "light", "basebd", "none"⟩,
    data := Dataset.empty }

/-- `g0` with the preserve-hover option active and one collected hover
border rule whose selector matches `c10El`. -/
def gHover : Engine :=
  { g0 with preserveHoverBorderColor := true,
            hoverColorRules :=
              [("a:hover", Rule.style "a:hover" "a:hover border-color: red")] }

/-- An element matching the filter set is left completely untouched by
`#darken`: neither engine state nor element state changes. -/
theorem darken_filtered {C : Type} (cm : ColorMath C) (g : Engine) (el : Elem)
    (h : matchesFilter g el = true) : darken cm g el = (g, el) := by
  simp [darken, h]

/-- An element already carrying the themed marker is returned unchanged by
`#darken` (the marker check guards every element write). -/
theorem darken_themed {C : Type} (cm : ColorMath C) (g : Engine) (el : Elem)
    (h : el.data.lightsOut = some "true") : (darken cm g el).2 = el := by
  unfold darken
  split
  · simp [h]
  · rfl


/-- The background policy writes no engine field other than the
`#backgroundColor` cache. -/
theorem darkBgOf_frame {C : Type} (cm : ColorMath C) (g : Engine)
    (t b : String) :
    (darkBgOf cm g t b).1 =
      { g with backgroundColor := (darkBgOf cm g t b).1.backgroundColor } := by
  simp only [darkBgOf]
  repeat' split
  all_goals rfl

/-- The border block touches only the inline border-color and its
snapshot. -/
theorem applyBorder_frame {C : Type} (cm : ColorMath C) (g : Engine)
    (colored : C) (a : ℚ) (el : Elem) :
    (applyBorder cm g colored a el).id = el.id ∧
    (applyBorder cm g colored a el).tagName = el.tagName ∧
    (applyBorder cm g colored a el).isHTML = el.isHTML ∧
    (applyBorder cm g colored a el).matchedBy = el.matchedBy ∧
    (applyBorder cm g colored a el).base = el.base ∧
    (applyBorder cm g colored a el).inline.color = el.inline.color ∧
    (applyBorder cm g colored a el).inline.backgroundColor =
      el.inline.backgroundColor ∧
    (applyBorder cm g colored a el).inline.backgroundImage =
      el.inline.backgroundImage ∧
    (applyBorder cm g colored a el).data.lightsOut = el.data.lightsOut ∧
    (applyBorder cm g colored a el).data.originalColor =
      el.data.originalColor ∧
    (applyBorder cm g colored a el).data.originalBgColor =
      el.data.originalBgColor ∧
    (applyBorder cm g colored a el).data.originalBgImage =
      el.data.originalBgImage ∧
    (applyBorder cm g colored a el).data.lightsOutGradient =
      el.data.lightsOutGradient := by
  simp only [applyBorder]
  repeat' split
  all_goals simp

/-- The gradient block touches only the inline background-image, its
snapshot and the gradient marker. -/
theorem applyGradient_frame {C : Type} (cm : ColorMath C) (bgImage : String)
    (el : Elem) :
    (applyGradient cm bgImage el).id = el.id ∧
    (applyGradient cm bgImage el).tagName = el.tagName ∧
    (applyGradient cm bgImage el).isHTML = el.isHTML ∧
    (applyGradient cm bgImage el).matchedBy = el.matchedBy ∧
    (applyGradient cm bgImage el).base = el.base ∧
    (applyGradient cm bgImage el).inline.color = el.inline.color ∧
    (applyGradient cm bgImage el).inline.backgroundColor =
      el.inline.backgroundColor ∧
    (applyGradient cm bgImage el).inline.borderColor =
      el.inline.borderColor ∧
    (applyGradient cm bgImage el).data.lightsOut = el.data.lightsOut ∧
    (applyGradient cm bgImage el).data.originalColor =
      el.data.originalColor ∧
    (applyGradient cm bgImage el).data.originalBgColor =
      el.data.originalBgColor ∧
    (applyGradient cm bgImage el).data.originalBorderColor =
      el.data.originalBorderColor := by
  simp only [applyGradient]
  repeat' split
  all_goals simp

/-- `#darken` writes no engine field other than the `#backgroundColor`
cache. -/
theorem darken_engine_frame {C : Type} (cm : ColorMath C) (g : Engine)
    (el : Elem) :
    (darken cm g el).1 =
      { g with backgroundColor := (darken cm g el).1.backgroundColor } := by
  simp only [darken]
  repeat' split
  all_goals first
    | rfl
    | exact darkBgOf_frame cm g _ _

/-- `#darken` preserves element identity, tag, kind, matched selectors and
cascaded values. -/
theorem darken_elem_frame {C : Type} (cm : ColorMath C) (g : Engine)
    (el : Elem) :
    (darken cm g el).2.id = el.id ∧
    (darken cm g el).2.tagName = el.tagName ∧
    (darken cm g el).2.isHTML = el.isHTML ∧
    (darken cm g el).2.matchedBy = el.matchedBy ∧
    (darken cm g el).2.base = el.base := by
  simp only [darken]
  repeat' split
  all_goals
    simp [applyBorder_frame, applyGradient_frame]

/-- After `#darken` on an unfiltered element, the themed marker is set
(whether or not it already was). -/
theorem darken_marks {C : Type} (cm : ColorMath C) (g : Engine) (el : Elem)
    (h : matchesFilter g el = false) :
    (darken cm g el).2.data.lightsOut = some "true" := by
  simp only [darken]
  repeat' split
  all_goals simp_all

/-- Whether an element matches the filter set is unchanged by `#darken`
(the filter set and the matched selectors are both untouched). -/
theorem matchesFilter_darken {C : Type} (cm : ColorMath C) (g : Engine)
    (el : Elem) :
    matchesFilter (darken cm g el).1 (darken cm g el).2 =
      matchesFilter g el := by
  have h1 : (darken cm g el).1.htmlFilterSet = g.htmlFilterSet := by
    rw [darken_engine_frame]
  have h2 := (darken_elem_frame cm g el).2.2.2.1
  rw [matchesFilter, matchesFilter, h1, h2]

/-- Claim C4: applying the theming operation `#darken` twice to the same
element without an intervening restore produces the same element state
(inline styles and dataset snapshot) as applying it once — the themed
marker set by the first application blocks every element write of the
second. -/
theorem C4_darken_idempotent {C : Type} (cm : ColorMath C) (g : Engine)
    (el : Elem) :
    (darken cm (darken cm g el).1 (darken cm g el).2).2 =
      (darken cm g el).2 := by
  by_cases hf : matchesFilter g el = true
  · rw [darken_filtered cm g el hf]
    exact congrArg Prod.snd (darken_filtered cm g el hf)
  · have hf' : matchesFilter g el = false := by
      cases hcase : matchesFilter g el
      · rfl
      · exact absurd hcase hf
    exact darken_themed cm _ _ (darken_marks cm g el hf')

/-- Claim C5: an element matching some selector of the configured filter set
is left completely untouched by the transform of a theming pass — `#darken`
returns both the engine and the element unchanged, so no inline style,
snapshot or marker is ever written to it (the traversal `#walk`, the only
other step of a pass, writes no element state at all, as its type below
shows). -/
theorem C5_filtered_untouched {C : Type} (cm : ColorMath C) (g : Engine)
    (el : Elem) (h : matchesFilter g el = true) :
    darken cm g el = (g, el) :=
  darken_filtered cm g el h

/-- Witness for C5 at a concrete input: a `<script>` element matching the
`script` filter entry is untouched. -/
theorem C5_filtered_witness :
    matchesFilter g0 scriptEl = true ∧ darken toyCm g0 scriptEl = (g0, scriptEl) :=
  ⟨by decide, C5_filtered_untouched toyCm g0 scriptEl (by decide)⟩

/-- Claim C9: assigning a value that is not an `HTMLElement` to the
`pageRoot` property throws immediately, and the engine state — including
the current theming root and the observer binding — is returned unchanged
(the guard runs before any assignment in the setter). -/
theorem C9_pageRoot_guard (g : Engine) (v : Option Elem)
    (h : isHTMLElementVal v = false) :
    setPageRoot g v = (g, some "pageRoot must be an instance of HTMLElement") := by
  cases v with
  | none => rfl
  | some e =>
    simp only [isHTMLElementVal] at h
    simp [setPageRoot, h]

/-- Witness for C9 at a concrete input: assigning a non-element value to an
engine leaves it unchanged and yields the error. -/
theorem C9_pageRoot_witness :
    isHTMLElementVal none = false ∧
    setPageRoot g0 none = (g0, some "pageRoot must be an instance of HTMLElement") :=
  ⟨rfl, C9_pageRoot_guard g0 none rfl⟩

/-- Counterexample to claim C2 as stated: a foreground/background pair whose
foreground passes the *default-level* initial readability test (line 288
calls `isReadable` without options) exits the loop after zero iterations
with a color that is not AAA-readable — so neither "AAA-readable" nor
"exactly 10 iterations" holds. -/
theorem C2_repair_counterexample :
    toyCm.isReadableAAA (repair toyCm "bgx" (toyCm.parse "mid")).1 "bgx" = false ∧
    (repair toyCm "bgx" (toyCm.parse "mid")).2.2 ≠ 10 := by
  decide

/-- Claim C2 (amended): for every color-math collaborator and every input
pair, the repair loop performs at most 10 lightening iterations, and on exit
either the loop's readability flag is set — which certifies readability at
the default (AA) level when zero iterations were performed and at level AAA
after at least one — or exactly 10 iterations were performed. -/
theorem C2_repair_amended {C : Type} (cm : ColorMath C) (bg : String)
    (c0 : C) :
    (repair cm bg c0).2.2 ≤ 10 ∧
    ((repair cm bg c0).2.1 = true ∨ (repair cm bg c0).2.2 = 10) ∧
    ((repair cm bg c0).2.2 = 0 →
      (repair cm bg c0).1 = c0 ∧
      (repair cm bg c0).2.1 = cm.isReadableDefault c0 bg) ∧
    (0 < (repair cm bg c0).2.2 →
      (repair cm bg c0).2.1 = cm.isReadableAAA (repair cm bg c0).1 bg) := by
  obtain ⟨h1, h2, h3, h4, h5⟩ :=
    repairGo_spec cm bg 10 c0 (cm.isReadableDefault c0 bg) 0 rfl
  refine ⟨h2, h3, ?_, h5⟩
  intro h0
  have heq := h4 h0
  exact ⟨congrArg Prod.fst heq, congrArg (fun p => p.2.1) heq⟩

/-- The border block is a no-op when a preserved hover border rule matches
the element. -/
theorem applyBorder_hover {C : Type} (cm : ColorMath C) (g : Engine)
    (colored : C) (a : ℚ) (el : Elem)
    (h : (g.hoverColorRules.find?
      (fun p => el.matchedBy.contains (stripHover p.1))).isSome = true) :
    applyBorder cm g colored a el = el := by
  simp only [applyBorder]
  split
  · obtain ⟨r, hr⟩ := Option.isSome_iff_exists.mp h
    rw [hr]
  · rfl

/-- After `#undarken` of a themed element with no border snapshot, the
inline border-color declaration is cleared. -/
theorem undarken_border_clear (el : Elem)
    (h1 : el.data.lightsOut = some "true")
    (h2 : el.data.originalBorderColor = none) :
    (undarken el).inline.borderColor = "" := by
  simp only [undarken, h1]
  repeat' split
  all_goals simp_all [getOr]


/-- `#undarken` preserves element identity, tag, kind, matched selectors and
cascaded values. -/
theorem undarken_frame (el : Elem) :
    (undarken el).id = el.id ∧
    (undarken el).tagName = el.tagName ∧
    (undarken el).isHTML = el.isHTML ∧
    (undarken el).matchedBy = el.matchedBy ∧
    (undarken el).base = el.base := by
  simp only [undarken]
  repeat' split
  all_goals simp

/-- Field-by-field description of `#undarken` on a themed element: each
inline declaration becomes its snapshot when a truthy one exists and is
cleared otherwise (the background-image only when the gradient marker is
set), and each consulted dataset entry is deleted exactly when truthy. -/
theorem undarken_proj (el : Elem) (h : el.data.lightsOut = some "true") :
    (undarken el).inline.color = getOr el.data.originalColor ∧
    (undarken el).inline.backgroundColor = getOr el.data.originalBgColor ∧
    (undarken el).inline.borderColor = getOr el.data.originalBorderColor ∧
    (undarken el).inline.backgroundImage =
      (if getOr el.data.lightsOutGradient ≠ "" then getOr el.data.originalBgImage
       else el.inline.backgroundImage) ∧
    (undarken el).data.lightsOut = none ∧
    (undarken el).data.originalColor =
      (if getOr el.data.originalColor ≠ "" then none else el.data.originalColor) ∧
    (undarken el).data.originalBgColor =
      (if getOr el.data.originalBgColor ≠ "" then none
       else el.data.originalBgColor) ∧
    (undarken el).data.originalBorderColor =
      (if getOr el.data.originalBorderColor ≠ "" then none
       else el.data.originalBorderColor) ∧
    (undarken el).data.lightsOutGradient =
      (if getOr el.data.lightsOutGradient ≠ "" then none
       else el.data.lightsOutGradient) ∧
    (undarken el).data.originalBgImage =
      (if getOr el.data.lightsOutGradient ≠ "" then
         (if getOr el.data.originalBgImage ≠ "" then none
          else el.data.originalBgImage)
       else el.data.originalBgImage) := by
  simp only [undarken, h]
  repeat' split
  all_goals simp_all

/-- On an unfiltered, not-yet-themed element, `#darken` writes the repaired
foreground color and the computed dark background inline, snapshots any
truthy pre-existing inline color and background-color, and sets the themed
marker. -/
theorem darken_writes {C : Type} (cm : ColorMath C) (g : Engine) (el : Elem)
    (hf : matchesFilter g el = false)
    (ht : el.data.lightsOut ≠ some "true") :
    (darken cm g el).2.inline.color =
      cm.toHex (repair cm
        (darkBgOf cm g (toLowerStr el.tagName) (computedOf el).backgroundColor).2
        (cm.parse (computedOf el).color)).1 ∧
    (darken cm g el).2.inline.backgroundColor =
      (darkBgOf cm g (toLowerStr el.tagName) (computedOf el).backgroundColor).2 ∧
    (darken cm g el).2.data.originalColor =
      (if el.inline.color ≠ "" then some el.inline.color
       else el.data.originalColor) ∧
    (darken cm g el).2.data.originalBgColor =
      (if el.inline.backgroundColor ≠ "" then some el.inline.backgroundColor
       else el.data.originalBgColor) := by
  simp only [darken, hf, ne_eq, ht, not_false_iff, if_true, Bool.false_eq_true,
    not_false_eq_true]
  refine ⟨by trivial, by trivial, ?_, ?_⟩ <;>
    simp only [applyBorder_frame, applyGradient_frame] <;>
    repeat' split <;>
    simp_all

/-- The background policy leaves the hover-rule index unchanged. -/
theorem darkBgOf_hoverColorRules {C : Type} (cm : ColorMath C) (g : Engine)
    (t b : String) :
    (darkBgOf cm g t b).1.hoverColorRules = g.hoverColorRules := by
  rw [darkBgOf_frame]

/-- On an unfiltered, not-yet-themed element whose computed border has
positive alpha and which matches no preserved hover rule, `#darken`
snapshots any truthy inline border-color and darkens the border from the
repaired foreground. -/
theorem darken_border_write {C : Type} (cm : ColorMath C) (g : Engine)
    (el : Elem)
    (hf : matchesFilter g el = false)
    (ht : el.data.lightsOut ≠ some "true")
    (hα : 0 < cm.getAlpha (cm.parse (computedOf el).borderColor))
    (hfind : g.hoverColorRules.find?
      (fun p => el.matchedBy.contains (stripHover p.1)) = none) :
    (darken cm g el).2.inline.borderColor =
      cm.toHex (cm.darkenBy (repair cm
        (darkBgOf cm g (toLowerStr el.tagName) (computedOf el).backgroundColor).2
        (cm.parse (computedOf el).color)).1 ((45:ℚ)/100)) ∧
    (darken cm g el).2.data.originalBorderColor =
      (if el.inline.borderColor ≠ "" then some el.inline.borderColor
       else el.data.originalBorderColor) := by
  simp only [darken, hf, ne_eq, ht, not_false_iff, if_true, Bool.false_eq_true,
    not_false_eq_true]
  simp only [applyGradient_frame]
  repeat' split
  all_goals simp_all [applyBorder, hα, darkBgOf_hoverColorRules]
  all_goals
    rcases hfind2 : List.find?
        (fun p => decide (stripHover p.1 ∈ el.matchedBy)) g.hoverColorRules
      with - | r <;> rw [hfind2] <;> simp_all
  all_goals
    exact absurd (by simpa using List.find?_some hfind2)
      (by simpa using hfind r.1 r.2 (by
        simpa using List.mem_of_find?_eq_some hfind2))

/-- When the computed border alpha is not positive, the border block leaves
the inline border-color and its snapshot untouched. -/
theorem darken_border_skip_alpha {C : Type} (cm : ColorMath C) (g : Engine)
    (el : Elem)
    (hf : matchesFilter g el = false)
    (ht : el.data.lightsOut ≠ some "true")
    (hα : ¬ 0 < cm.getAlpha (cm.parse (computedOf el).borderColor)) :
    (darken cm g el).2.inline.borderColor = el.inline.borderColor ∧
    (darken cm g el).2.data.originalBorderColor =
      el.data.originalBorderColor := by
  simp only [darken, hf, ne_eq, ht, not_false_iff, if_true, Bool.false_eq_true,
    not_false_eq_true]
  simp only [applyGradient_frame]
  repeat' split
  all_goals simp_all [applyBorder, hα]
  all_goals rw [if_neg (not_lt.mpr hα)]
  all_goals simp_all

/-- When a preserved hover border rule matches the element, the border block
leaves the inline border-color and its snapshot untouched. -/
theorem darken_border_skip_hover {C : Type} (cm : ColorMath C) (g : Engine)
    (el : Elem)
    (hf : matchesFilter g el = false)
    (ht : el.data.lightsOut ≠ some "true")
    (hsome : (g.hoverColorRules.find?
      (fun p => el.matchedBy.contains (stripHover p.1))).isSome = true) :
    (darken cm g el).2.inline.borderColor = el.inline.borderColor ∧
    (darken cm g el).2.data.originalBorderColor =
      el.data.originalBorderColor := by
  obtain ⟨r, hr⟩ := Option.isSome_iff_exists.mp hsome
  simp only [darken, hf, ne_eq, ht, not_false_iff, if_true, Bool.false_eq_true,
    not_false_eq_true]
  simp only [applyGradient_frame]
  repeat' split
  all_goals simp_all [applyBorder, hr, darkBgOf_hoverColorRules]

/-- On an unfiltered, not-yet-themed element whose computed background image
is a gradient, `#darken` snapshots any truthy inline background-image,
rewrites the image and sets the gradient marker. -/
theorem darken_gradient_write {C : Type} (cm : ColorMath C) (g : Engine)
    (el : Elem)
    (hf : matchesFilter g el = false)
    (ht : el.data.lightsOut ≠ some "true")
    (hg : (computedOf el).backgroundImage ≠ "none" ∧
      containsSub (computedOf el).backgroundImage "-gradient(" = true) :
    (darken cm g el).2.inline.backgroundImage =
      replaceColorValues cm (computedOf el).backgroundImage ∧
    (darken cm g el).2.data.lightsOutGradient = some "true" ∧
    (darken cm g el).2.data.originalBgImage =
      (if el.inline.backgroundImage ≠ "" then some el.inline.backgroundImage
       else el.data.originalBgImage) := by
  simp only [darken, hf, ne_eq, ht, not_false_iff, if_true, Bool.false_eq_true,
    not_false_eq_true]
  simp only [applyGradient, hg.1, hg.2]
  repeat' split
  all_goals simp_all [applyBorder_frame]

/-- When the computed background image is not a gradient, the gradient block
leaves the inline background-image, the gradient marker and its snapshot
untouched. -/
theorem darken_gradient_skip {C : Type} (cm : ColorMath C) (g : Engine)
    (el : Elem)
    (hf : matchesFilter g el = false)
    (ht : el.data.lightsOut ≠ some "true")
    (hg : ¬ ((computedOf el).backgroundImage ≠ "none" ∧
      containsSub (computedOf el).backgroundImage "-gradient(" = true)) :
    (darken cm g el).2.inline.backgroundImage = el.inline.backgroundImage ∧
    (darken cm g el).2.data.lightsOutGradient = el.data.lightsOutGradient ∧
    (darken cm g el).2.data.originalBgImage = el.data.originalBgImage := by
  simp only [darken, hf, ne_eq, ht, not_false_iff, if_true, Bool.false_eq_true,
    not_false_eq_true]
  simp only [applyGradient, hg]
  repeat' split
  all_goals simp_all [applyBorder_frame]

/-- Counterexample to claim C1 as stated: an element with pre-theme inline
color, background-color and border-color (`transparent`, so the computed
border alpha is zero) round-trips to a *cleared* inline border-color — the
border was never snapshotted, yet the restore removes the declaration. -/
theorem C1_roundtrip_counterexample :
    c1El.inline.color ≠ "" ∧ c1El.inline.backgroundColor ≠ "" ∧
    c1El.inline.borderColor ≠ "" ∧ c1El.data = Dataset.empty ∧
    matchesFilter g0 c1El = false ∧
    (undarken (darken toyCm g0 c1El).2).inline.borderColor ≠
      c1El.inline.borderColor := by
  decide

/-- Claim C1 (amended): for a clean, unfiltered element the
`#darken`/`#undarken` round trip restores the inline color,
background-color and background-image declarations exactly (clearing any
the element did not have), and clears every dataset entry; the inline
border-color is restored exactly when the border block actually ran
(positive computed border alpha and no preserved hover rule matched), and
is cleared entirely otherwise. -/
theorem C1_roundtrip_amended {C : Type} (cm : ColorMath C) (g : Engine)
    (el : Elem)
    (hclean : el.data = Dataset.empty)
    (hfilter : matchesFilter g el = false) :
    (undarken (darken cm g el).2).inline.color = el.inline.color ∧
    (undarken (darken cm g el).2).inline.backgroundColor =
      el.inline.backgroundColor ∧
    (undarken (darken cm g el).2).inline.backgroundImage =
      el.inline.backgroundImage ∧
    ((0 < cm.getAlpha (cm.parse (computedOf el).borderColor) ∧
        g.hoverColorRules.find?
          (fun p => el.matchedBy.contains (stripHover p.1)) = none) →
      (undarken (darken cm g el).2).inline.borderColor =
        el.inline.borderColor) ∧
    (¬ (0 < cm.getAlpha (cm.parse (computedOf el).borderColor) ∧
        g.hoverColorRules.find?
          (fun p => el.matchedBy.contains (stripHover p.1)) = none) →
      (undarken (darken cm g el).2).inline.borderColor = "") ∧
    (undarken (darken cm g el).2).data = Dataset.empty := by
  have ht : el.data.lightsOut ≠ some "true" := by
    rw [hclean]
    simp [Dataset.empty]
  have hm := darken_marks cm g el hfilter
  obtain ⟨u1, u2, u3, u4, u5, u6, u7, u8, u9, u10⟩ := undarken_proj _ hm
  obtain ⟨w1, w2, w3, w4⟩ := darken_writes cm g el hfilter ht
  have e4 : (undarken (darken cm g el).2).data.originalBorderColor = none := by
    rw [u8]
    by_cases hα : 0 < cm.getAlpha (cm.parse (computedOf el).borderColor)
    · rcases hcase : g.hoverColorRules.find?
          (fun p => el.matchedBy.contains (stripHover p.1)) with - | r
      · obtain ⟨-, b2⟩ := darken_border_write cm g el hfilter ht hα hcase
        rw [b2, hclean]
        by_cases hbd : el.inline.borderColor = "" <;>
          simp [getOr, hbd, Dataset.empty]
      · obtain ⟨-, b2⟩ := darken_border_skip_hover cm g el hfilter ht
          (by rw [hcase]; rfl)
        rw [b2, hclean]
        simp [getOr, Dataset.empty]
    · obtain ⟨-, b2⟩ := darken_border_skip_alpha cm g el hfilter ht hα
      rw [b2, hclean]
      simp [getOr, Dataset.empty]
  have e5 : (undarken (darken cm g el).2).data.lightsOutGradient = none := by
    rw [u9]
    by_cases hg : ((computedOf el).backgroundImage ≠ "none" ∧
        containsSub (computedOf el).backgroundImage "-gradient(" = true)
    · obtain ⟨-, g2, -⟩ := darken_gradient_write cm g el hfilter ht hg
      rw [g2]
      simp [getOr]
    · obtain ⟨-, g2, -⟩ := darken_gradient_skip cm g el hfilter ht hg
      rw [g2, hclean]
      simp [getOr, Dataset.empty]
  have e6 : (undarken (darken cm g el).2).data.originalBgImage = none := by
    rw [u10]
    by_cases hg : ((computedOf el).backgroundImage ≠ "none" ∧
        containsSub (computedOf el).backgroundImage "-gradient(" = true)
    · obtain ⟨-, g2, g3⟩ := darken_gradient_write cm g el hfilter ht hg
      rw [g2, g3, hclean]
      by_cases hbi : el.inline.backgroundImage = "" <;>
        simp [getOr, hbi, Dataset.empty]
    · obtain ⟨-, g2, g3⟩ := darken_gradient_skip cm g el hfilter ht hg
      rw [g2, g3, hclean]
      simp [getOr, Dataset.empty]
  have e2 : (undarken (darken cm g el).2).data.originalColor = none := by
    rw [u6, w3, hclean]
    by_cases hc : el.inline.color = "" <;> simp [getOr, hc, Dataset.empty]
  have e3 : (undarken (darken cm g el).2).data.originalBgColor = none := by
    rw [u7, w4, hclean]
    by_cases hb : el.inline.backgroundColor = "" <;>
      simp [getOr, hb, Dataset.empty]
  refine ⟨?_, ?_, ?_, ?_, ?_, ?_⟩
  · rw [u1, w3, hclean]
    by_cases hc : el.inline.color = "" <;> simp [getOr, hc, Dataset.empty]
  · rw [u2, w4, hclean]
    by_cases hb : el.inline.backgroundColor = "" <;>
      simp [getOr, hb, Dataset.empty]
  · rw [u4]
    by_cases hg : ((computedOf el).backgroundImage ≠ "none" ∧
        containsSub (computedOf el).backgroundImage "-gradient(" = true)
    · obtain ⟨-, g2, g3⟩ := darken_gradient_write cm g el hfilter ht hg
      rw [g2, g3, hclean]
      by_cases hbi : el.inline.backgroundImage = "" <;>
        simp [getOr, hbi, Dataset.empty]
    · obtain ⟨g1, g2, -⟩ := darken_gradient_skip cm g el hfilter ht hg
      rw [g1, g2, hclean]
      simp [getOr, Dataset.empty]
  · intro hb
    obtain ⟨-, b2⟩ := darken_border_write cm g el hfilter ht hb.1 hb.2
    rw [u3, b2, hclean]
    by_cases hbd : el.inline.borderColor = "" <;>
      simp [getOr, hbd, Dataset.empty]
  · intro hb
    rw [u3]
    by_cases hα : 0 < cm.getAlpha (cm.parse (computedOf el).borderColor)
    · have hsome : (g.hoverColorRules.find?
          (fun p => el.matchedBy.contains (stripHover p.1))).isSome = true := by
        rcases hcase : g.hoverColorRules.find?
            (fun p => el.matchedBy.contains (stripHover p.1)) with - | r
        · exact absurd ⟨hα, hcase⟩ hb
        · rw [hcase]
          rfl
      obtain ⟨-, b2⟩ := darken_border_skip_hover cm g el hfilter ht hsome
      rw [b2, hclean]
      simp [getOr, Dataset.empty]
    · obtain ⟨-, b2⟩ := darken_border_skip_alpha cm g el hfilter ht hα
      rw [b2, hclean]
      simp [getOr, Dataset.empty]
  · rcases hd : (undarken (darken cm g el).2).data with ⟨a, b, c, d, e, f⟩
    rw [hd] at u5 e2 e3 e4 e5 e6
    simp only at u5 e2 e3 e4 e5 e6
    rw [Dataset.empty, u5, e2, e3, e4, e5, e6]

/-- Witness for the amended C1 at a concrete input: an element with inline
color, background-color and an opaque border-color (border block runs, no
hover rule) round-trips to exactly its original inline declarations. -/
theorem C1_roundtrip_witness :
    (c1wEl.data = Dataset.empty ∧ matchesFilter g0 c1wEl = false) ∧
    (undarken (darken toyCm g0 c1wEl).2).inline.color = c1wEl.inline.color ∧
    (undarken (darken toyCm g0 c1wEl).2).inline.backgroundColor =
      c1wEl.inline.backgroundColor ∧
    (undarken (darken toyCm g0 c1wEl).2).inline.backgroundImage =
      c1wEl.inline.backgroundImage ∧
    ((0 < toyCm.getAlpha (toyCm.parse (computedOf c1wEl).borderColor) ∧
        g0.hoverColorRules.find?
          (fun p => c1wEl.matchedBy.contains (stripHover p.1)) = none) →
      (undarken (darken toyCm g0 c1wEl).2).inline.borderColor =
        c1wEl.inline.borderColor) ∧
    (¬ (0 < toyCm.getAlpha (toyCm.parse (computedOf c1wEl).borderColor) ∧
        g0.hoverColorRules.find?
          (fun p => c1wEl.matchedBy.contains (stripHover p.1)) = none) →
      (undarken (darken toyCm g0 c1wEl).2).inline.borderColor = "") ∧
    (undarken (darken toyCm g0 c1wEl).2).data = Dataset.empty :=
  ⟨⟨by decide, by decide⟩,
    C1_roundtrip_amended toyCm g0 c1wEl (by decide) (by decide)⟩

/-- Under the filter guard, the engine returned by `#darken` is exactly the
one produced by the background policy. -/
theorem darken_engine_eq {C : Type} (cm : ColorMath C) (g : Engine)
    (el : Elem) (hf : matchesFilter g el = false) :
    (darken cm g el).1 =
      (darkBgOf cm g (toLowerStr el.tagName)
        (computedOf el).backgroundColor).1 := by
  simp only [darken, hf, Bool.false_eq_true, not_false_eq_true, if_true]
  split <;> rfl

/-- Counterexample to claim C3 as stated: an element that is *not* the
theming root but shares its tag name (`div`), with an already-dark computed
background, still receives the forced root treatment — its background is
rewritten (not left unchanged) and it populates the engine's reported
`backgroundColor` cache. -/
theorem C3_background_counterexample :
    c3El.id ≠ g0.pageRoot.id ∧
    matchesFilter g0 c3El = false ∧
    toyCm.isDark (toyCm.parse (computedOf c3El).backgroundColor) = true ∧
    (darken toyCm g0 c3El).2.inline.backgroundColor ≠
      (computedOf c3El).backgroundColor ∧
    (darken toyCm g0 c3El).1.backgroundColor ≠ g0.backgroundColor := by
  decide

/-- Claim C3 (amended): during a theming pass, an unfiltered element
receives the forced, alpha-adjusted darkened background if and only if its
lowercased tag name equals the theming root's — not if and only if it *is*
the theming root — with the first such value cached as the engine's
reported `backgroundColor`; every other element's background is darkened
only when not already perceptually dark, and an already-dark background
value is written back unchanged. -/
theorem C3_background_amended {C : Type} (cm : ColorMath C) (g : Engine)
    (el : Elem) (hfilter : matchesFilter g el = false) :
    (toLowerStr el.tagName = toLowerStr g.pageRoot.tagName →
      (g.backgroundColor = "" →
        (darken cm g el).1.backgroundColor =
          cm.toHex (cm.setAlpha (cm.darkenBy
            (cm.parse (computedOf el).backgroundColor) ((9:ℚ)/10))
            g.pageRootAlpha)) ∧
      (g.backgroundColor ≠ "" →
        (darken cm g el).1.backgroundColor = g.backgroundColor) ∧
      (el.data.lightsOut ≠ some "true" →
        (darken cm g el).2.inline.backgroundColor =
          cm.toHex (cm.setAlpha (cm.darkenBy
            (cm.parse (computedOf el).backgroundColor) ((9:ℚ)/10))
            g.pageRootAlpha))) ∧
    (toLowerStr el.tagName ≠ toLowerStr g.pageRoot.tagName →
      (darken cm g el).1.backgroundColor = g.backgroundColor ∧
      (el.data.lightsOut ≠ some "true" →
        (cm.isDark (cm.parse (computedOf el).backgroundColor) = true →
          (darken cm g el).2.inline.backgroundColor =
            (computedOf el).backgroundColor) ∧
        (cm.isDark (cm.parse (computedOf el).backgroundColor) = false →
          (darken cm g el).2.inline.backgroundColor =
            cm.toHex (cm.darkenBy
              (cm.parse (computedOf el).backgroundColor) ((9:ℚ)/10))))) := by
  constructor
  · intro htag
    refine ⟨?_, ?_, ?_⟩
    · intro hempty
      rw [darken_engine_eq cm g el hfilter]
      simp [darkBgOf, htag, hempty]
    · intro hfull
      rw [darken_engine_eq cm g el hfilter]
      simp [darkBgOf, htag, hfull]
    · intro ht
      obtain ⟨-, w2, -, -⟩ := darken_writes cm g el hfilter ht
      rw [w2]
      simp [darkBgOf, htag]
  · intro htag
    constructor
    · rw [darken_engine_eq cm g el hfilter]
      by_cases hdark : cm.isDark (cm.parse (computedOf el).backgroundColor) <;>
        simp [darkBgOf, htag, hdark]
    · intro ht
      obtain ⟨-, w2, -, -⟩ := darken_writes cm g el hfilter ht
      constructor
      · intro hdark
        rw [w2]
        simp [darkBgOf, htag, hdark]
      · intro hdark
        rw [w2]
        simp [darkBgOf, htag, hdark]

/-- Witness for the amended C3 at a concrete input: the page root element
itself gets the forced alpha-adjusted background, cached as the engine's
reported background color. -/
theorem C3_background_witness :
    (matchesFilter g0 rootEl = false ∧
      toLowerStr rootEl.tagName = toLowerStr g0.pageRoot.tagName ∧
      g0.backgroundColor = "") ∧
    (darken toyCm g0 rootEl).1.backgroundColor =
      toyCm.toHex (toyCm.setAlpha (toyCm.darkenBy
        (toyCm.parse (computedOf rootEl).backgroundColor) ((9:ℚ)/10))
        g0.pageRootAlpha) :=
  ⟨⟨by decide, by decide, by decide⟩,
    ((C3_background_amended toyCm g0 rootEl (by decide)).1 (by decide)).1
      (by decide)⟩

/-- Claim C10: for a clean, unfiltered element whose computed border has
positive alpha and which matches a preserved `:hover` border rule (the
situation `preserveHoverBorderColor` sets up), `#darken` neither modifies
the inline border-color nor records a border snapshot — yet `#undarken`
unconditionally falls back to removing the inline border-color declaration,
so an inline border-color the engine never touched is cleared by the
restore. -/
theorem C10_hover_border_frame {C : Type} (cm : ColorMath C) (g : Engine)
    (el : Elem)
    (hfilter : matchesFilter g el = false)
    (hclean : el.data = Dataset.empty)
    (halpha : 0 < cm.getAlpha (cm.parse (computedOf el).borderColor))
    (hhover : (g.hoverColorRules.find?
      (fun p => el.matchedBy.contains (stripHover p.1))).isSome = true)
    (hbd : el.inline.borderColor ≠ "") :
    (darken cm g el).2.inline.borderColor = el.inline.borderColor ∧
    (darken cm g el).2.data.originalBorderColor = none ∧
    (undarken (darken cm g el).2).inline.borderColor = "" := by
  have ht : el.data.lightsOut ≠ some "true" := by
    rw [hclean]
    simp [Dataset.empty]
  obtain ⟨b1, b2⟩ := darken_border_skip_hover cm g el hfilter ht hhover
  have hsnap : (darken cm g el).2.data.originalBorderColor = none := by
    rw [b2, hclean]
    rfl
  exact ⟨b1, hsnap,
    undarken_border_clear _ (darken_marks cm g el hfilter) hsnap⟩

/-- Witness for C10 at a concrete input: an `<a>` element with inline
border-color `bdA` matched by the preserved rule `a:hover`; after the
round trip the untouched inline border-color is gone. -/
theorem C10_hover_border_witness :
    (matchesFilter gHover c10El = false ∧ c10El.data = Dataset.empty ∧
      0 < toyCm.getAlpha (toyCm.parse (computedOf c10El).borderColor) ∧
      (gHover.hoverColorRules.find?
        (fun p => c10El.matchedBy.contains (stripHover p.1))).isSome = true ∧
      c10El.inline.borderColor ≠ "") ∧
    (darken toyCm gHover c10El).2.inline.borderColor =
      c10El.inline.borderColor ∧
    (darken toyCm gHover c10El).2.data.originalBorderColor = none ∧
    (undarken (darken toyCm gHover c10El).2).inline.borderColor = "" :=
  ⟨⟨by decide, by decide, by decide, by decide, by decide⟩,
    C10_hover_border_frame toyCm gHover c10El (by decide) (by decide)
      (by decide) (by decide) (by decide)⟩

/-- A node of the live document tree: its element state, an optional
attached shadow root (carrying the shadow root's style sheets and child
elements), and its light children. -/
inductive ENode : Type where
  | mk (el : Elem) (shadow : Option (List Sheet × List ENode))
      (children : List ENode)

/-- The element state at this node. -/
def ENode.el : ENode → Elem
  | .mk e _ _ => e

/-- The attached shadow root, if any. -/
def ENode.shadow : ENode → Option (List Sheet × List ENode)
  | .mk _ s _ => s

/-- The light children of this node. -/
def ENode.children : ENode → List ENode
  | .mk _ _ c => c

mutual

/-- Decidable equality of tree nodes (the nested inductive defeats the
automatic derivation). -/
def decEqENode : (a b : ENode) → Decidable (a = b)
  | .mk e1 s1 c1, .mk e2 s2 c2 =>
    match decEq e1 e2, decEqShadow s1 s2, decEqENodeList c1 c2 with
    | isTrue h1, isTrue h2, isTrue h3 => isTrue (by rw [h1, h2, h3])
    | isFalse h1, _, _ => isFalse (by intro h; injection h with a1 a2 a3; exact h1 a1)
    | _, isFalse h2, _ => isFalse (by intro h; injection h with a1 a2 a3; exact h2 a2)
    | _, _, isFalse h3 => isFalse (by intro h; injection h with a1 a2 a3; exact h3 a3)

/-- Decidable equality of optional shadow data. -/
def decEqShadow : (a b : Option (List Sheet × List ENode)) → Decidable (a = b)
  | none, none => isTrue rfl
  | none, some _ => isFalse (by intro h; exact Option.noConfusion h)
  | some _, none => isFalse (by intro h; exact Option.noConfusion h)
  | some (x1, y1), some (x2, y2) =>
    match decEq x1 x2, decEqENodeList y1 y2 with
    | isTrue h1, isTrue h2 => isTrue (by rw [h1, h2])
    | isFalse h1, _ => isFalse (by
        intro h; injection h with h2; injection h2 with hx hy; exact h1 hx)
    | _, isFalse h2 => isFalse (by
        intro h; injection h with h3; injection h3 with hx hy; exact h2 hy)

/-- Decidable equality of node lists. -/
def decEqENodeList : (a b : List ENode) → Decidable (a = b)
  | [], [] => isTrue rfl
  | [], _ :: _ => isFalse (by intro h; exact List.noConfusion h)
  | _ :: _, [] => isFalse (by intro h; exact List.noConfusion h)
  | a :: as, b :: bs =>
    match decEqENode a b, decEqENodeList as bs with
    | isTrue h1, isTrue h2 => isTrue (by rw [h1, h2])
    | isFalse h1, _ => isFalse (by intro h; injection h with hx hy; exact h1 hx)
    | _, isFalse h2 => isFalse (by intro h; injection h with hx hy; exact h2 hy)

end

instance : DecidableEq ENode := decEqENode

/-- `!sheet.href || sheet.href.startsWith(window.location.origin)`: the
same-origin filter applied to style sheets (prefix test on characters). -/
def sheetOriginOk {C : Type} (ctx : Ctx C) (sheet : Sheet) : Bool :=
  match sheet.href with
  | none => true
  | some h => ctx.origin.data.isPrefixOf h.data

mutual

/-- `#traverse` (lines 195–225) on one node: an `HTMLElement` is added to
the membership set; when it hosts a shadow root, a sub-tree observer is
registered once per host, the shadow root and its same-origin sheets are
collected, and every element under the shadow root is traversed. -/
def traverseNode {C : Type} (ctx : Ctx C) (g : Engine) : ENode → Engine
  | .mk el shadow _children =>
    if el.isHTML then
      let g := { g with elements := addU g.elements el.id }
      match shadow with
      | none => g
      | some (sheets, content) =>
        -- observer creation is idempotent per host (the has-check of
        -- lines 200–210): add the host key once.
        let g := { g with observers := addU g.observers el.id }
        let g := { g with shadowRoots := addU g.shadowRoots el.id }
        let g := { g with
          shadowSheets := foldAddU g.shadowSheets
            (sheets.filter (sheetOriginOk ctx)) }
        travFlat ctx g content
    else g

/-- The `querySelectorAll('*').forEach` iteration driving `#traverse`: a
`forEach` over a pre-order descendant snapshot — each listed node is
traversed, then its own descendants. -/
def travFlat {C : Type} (ctx : Ctx C) (g : Engine) : List ENode → Engine
  | [] => g
  | .mk e sh cs :: rest =>
    travFlat ctx (travFlat ctx (traverseNode ctx g (.mk e sh cs)) cs) rest
end

/-- `JavaScript Map.prototype.set` on an insertion-ordered association
list: update the value in place when the key exists, append otherwise. -/
def mapSet (m : List (String × Rule)) (k : String) (v : Rule) :
    List (String × Rule) :=
  if m.any (fun p => p.1 = k) then
    m.map (fun p => if p.1 = k then (k, v) else p)
  else m ++ [(k, v)]

/-- The `flatMap` step of `#getHoverBorderColorRules`: a `CSSStyleRule`
yields itself, a `CSSMediaRule` yields its nested style rules.  Each entry
carries the rule's `selectorText`, `cssText` and the rule itself. -/
def styleEntries : Rule → List (String × String × Rule)
  | .style sel txt => [(sel, txt, Rule.style sel txt)]
  | .media subs =>
    subs.filterMap (fun sr =>
      match sr with
      | .style s t => some (s, t, Rule.style s t)
      | .other => none)
  | .unknown => []

/-- `#getHoverBorderColorRules` (lines 227–251): over the same-origin
document and shadow sheets, collect the style rules (directly or inside a
media rule) whose selector mentions `:hover` and whose text mentions
`border`, and `Map.set` each into the hover-rule index keyed by its
selector text. -/
def getHoverBorderColorRules {C : Type} (ctx : Ctx C) (g : Engine) : Engine :=
  let found :=
    ((ctx.docSheets ++ g.shadowSheets).filter (sheetOriginOk ctx)).flatMap
      (fun sheet =>
        ((sheet.rules.filter Rule.isStyleOrMedia).flatMap styleEntries).filter
          (fun e => containsSub e.1 ":hover" && containsSub e.2.1 "border"))
  { g with hoverColorRules :=
      found.foldl (fun m e => mapSet m e.1 e.2.2) g.hoverColorRules }

/-- The scope of `#walk`'s query: the child elements of
`root.shadowRoot || root`, i.e. the shadow content when the root hosts a
shadow root, its light children otherwise. -/
def walkScope : ENode → List ENode
  | root =>
    match root.shadow with
    | some (_, content) => content
    | none => root.children

/-- `#walk` (lines 253–265): add the root itself when it is an
`HTMLElement`, run the `forEach` traversal over
`(root.shadowRoot || root).querySelectorAll('*')`, then build the
hover-rule index when the preserve option is set. -/
def walk {C : Type} (ctx : Ctx C) (g : Engine) (root : ENode) : Engine :=
  let g :=
    if root.el.isHTML then { g with elements := addU g.elements root.el.id }
    else g
  let g := travFlat ctx g (walkScope root)
  if g.preserveHoverBorderColor then getHoverBorderColorRules ctx g else g

/-- `#clear` (lines 396–407): empty all indices and garbage-collect every
sub-tree observer whose host element is no longer connected. -/
def clear {C : Type} (ctx : Ctx C) (g : Engine) : Engine :=
  { g with elements := [], shadowRoots := [], shadowSheets := [],
           hoverColorRules := [],
           observers := g.observers.filter (fun h => ctx.conn.contains h) }

mutual

/-- All nodes of a tree (itself, its light descendants and its shadow
descendants), modelling the reachable element objects. -/
def allNodesN : ENode → List ENode
  | .mk e sh cs =>
    .mk e sh cs ::
      (allNodesL cs ++
        (match sh with
         | some (_, content) => allNodesL content
         | none => []))
def allNodesL : List ENode → List ENode
  | [] => []
  | n :: rest => allNodesN n ++ allNodesL rest
end

mutual

/-- Apply a function to every element state in the tree. -/
def mapElemsN (f : Elem → Elem) : ENode → ENode
  | .mk e sh cs =>
    .mk (f e)
      (match sh with
       | some (sheets, content) => some (sheets, mapElemsL f content)
       | none => none)
      (mapElemsL f cs)
def mapElemsL (f : Elem → Elem) : List ENode → List ENode
  | [] => []
  | n :: rest => mapElemsN f n :: mapElemsL f rest
end

/-- Resolve a membership-set entry (an element id) to the element state it
refers to in the live tree. -/
def findElem (t : ENode) (i : Nat) : Option Elem :=
  ((allNodesN t).find? (fun n => n.el.id = i)).map ENode.el

/-- Write back an element state through its id (object identity in the
model; ids are unique in a real tree). -/
def setElemById (t : ENode) (i : Nat) (e : Elem) : ENode :=
  mapElemsN (fun x => if x.id = i then e else x) t

/-- One step of `this.#elements.forEach(this.#darken.bind(this))`: look the
member up in the live tree, transform it, write it back. -/
def darkenAt {C : Type} (cm : ColorMath C) (gt : Engine × ENode) (i : Nat) :
    Engine × ENode :=
  match findElem gt.2 i with
  | none => gt
  | some e =>
    let ge := darken cm gt.1 e
    (ge.1, setElemById gt.2 i ge.2)

/-- One step of `this.#elements.forEach(this.#undarken.bind(this))`. -/
def undarkenAt (gt : Engine × ENode) (i : Nat) : Engine × ENode :=
  match findElem gt.2 i with
  | none => gt
  | some e => (gt.1, setElemById gt.2 i (undarken e))

/-- `#update` (lines 409–422): clear stale state, re-index from the root,
then darken every member of the membership set.  (The final
`adoptedStyleSheets` propagation, the performance marks and the verbose log
touch only host-document state.) -/
def update {C : Type} (ctx : Ctx C) (g : Engine) (root : ENode) :
    Engine × ENode :=
  let g := clear ctx g
  let g := walk ctx g root
  g.elements.foldl (darkenAt ctx.cm) (g, root)

/-- `enable` (lines 424–430): set the flag, bind the page observer to the
page root, populate the constructed sheet, and run one full re-theme pass.
(`document.adoptedStyleSheets` receives the sheet — host-document state.) -/
def enable {C : Type} (ctx : Ctx C) (g : Engine) (root : ENode) :
    Engine × ENode :=
  let g := { g with isEnabled := true }
  let g := { g with observedRoot := some g.pageRoot.id }
  let g := { g with sheetText := g.cssRules }
  update ctx g root

/-- `disable` (lines 432–444): clear the flag, re-index once more, empty
the sheet, reset the cached background color, untheme every member,
disconnect the page observer, disconnect and drop every sub-tree observer,
and clear all indices. -/
def disable {C : Type} (ctx : Ctx C) (g : Engine) (root : ENode) :
    Engine × ENode :=
  let g := { g with isEnabled := false }
  let g := walk ctx g root
  let g := { g with sheetText := "" }
  let g := { g with backgroundColor := "" }
  let gt := g.elements.foldl undarkenAt (g, root)
  let g := { gt.1 with observedRoot := none }
  let g := { g with observers := [] }
  (clear ctx g, gt.2)

/-- `toggle` (lines 446–456). -/
def toggle {C : Type} (ctx : Ctx C) (g : Engine) (root : ENode)
    (force : Option Bool) : Engine × ENode :=
  let f :=
    match force with
    | none => !g.isEnabled
    | some b => b
  if f then enable ctx g root else disable ctx g root

theorem mem_addU_self [DecidableEq α] (l : List α) (a : α) : a ∈ addU l a := by
  unfold addU
  split <;> simp [*]

theorem mem_addU_of_mem [DecidableEq α] {l : List α} {i : α} (a : α)
    (h : i ∈ l) : i ∈ addU l a := by
  unfold addU
  split <;> simp [h]

theorem mem_addU_iff [DecidableEq α] (l : List α) (a i : α) :
    i ∈ addU l a ↔ i ∈ l ∨ i = a := by
  unfold addU
  split <;> rename_i hmem
  · constructor
    · exact Or.inl
    · rintro (h | rfl)
      · exact h
      · exact hmem
  · simp

theorem mem_foldAddU_of_mem [DecidableEq α] (s : List α) :
    ∀ (l : List α) (i : α), i ∈ l → i ∈ foldAddU l s := by
  induction s with
  | nil => intro l i h; exact h
  | cons a s ih =>
    intro l i h
    exact ih (addU l a) i (mem_addU_of_mem a h)

mutual

/-- The nodes visited by `#traverse` starting at one node, in visit
order. -/
def visitedN : ENode → List ENode
  | .mk e sh cs =>
    .mk e sh cs ::
      (if e.isHTML then
        match sh with
        | some (_, content) => visitedL content
        | none => []
       else [])

/-- The nodes visited by the `forEach` over a pre-order descendant
snapshot. -/
def visitedL : List ENode → List ENode
  | [] => []
  | .mk e sh cs :: rest =>
    visitedN (.mk e sh cs) ++ visitedL cs ++ visitedL rest

end

/-- The nodes visited by a whole `#walk`: the root and the `forEach` over
`(root.shadowRoot || root).querySelectorAll('*')`. -/
def walkVisited (root : ENode) : List ENode :=
  root :: visitedL (walkScope root)


theorem mem_foldAddU_iff [DecidableEq α] (s : List α) :
    ∀ (l : List α) (i : α), i ∈ foldAddU l s ↔ i ∈ l ∨ i ∈ s := by
  induction s with
  | nil => simp [foldAddU]
  | cons a s ih =>
    intro l i
    have : foldAddU l (a :: s) = foldAddU (addU l a) s := rfl
    rw [this, ih (addU l a) i, mem_addU_iff]
    constructor
    · rintro ((h | h) | h)
      · exact Or.inl h
      · subst h
        simp
      · simp [h]
    · rintro (h | h)
      · exact Or.inl (Or.inl h)
      · rcases List.mem_cons.mp h with rfl | h2
        · exact Or.inl (Or.inr rfl)
        · exact Or.inr h2

mutual

/-- The element ids `#traverse` adds to the membership set from one node,
in insertion order. -/
def eSeqN : ENode → List Nat
  | .mk e sh cs =>
    if e.isHTML then
      e.id ::
        (match sh with
         | some (_, content) => eSeqL content
         | none => [])
    else []

/-- The element ids added by the `forEach` over a pre-order descendant
snapshot. -/
def eSeqL : List ENode → List Nat
  | [] => []
  | .mk e sh cs :: rest => eSeqN (.mk e sh cs) ++ eSeqL cs ++ eSeqL rest

end

mutual

/-- The shadow-host ids `#traverse` registers (as observer keys and shadow
roots) from one node, in insertion order. -/
def hSeqN : ENode → List Nat
  | .mk e sh cs =>
    if e.isHTML then
      match sh with
      | some (_, content) => e.id :: hSeqL content
      | none => []
    else []

/-- The shadow-host ids registered by the `forEach` over a pre-order
descendant snapshot. -/
def hSeqL : List ENode → List Nat
  | [] => []
  | .mk e sh cs :: rest => hSeqN (.mk e sh cs) ++ hSeqL cs ++ hSeqL rest

end

mutual

/-- The same-origin shadow sheets `#traverse` collects from one node, in
insertion order. -/
def sSeqN {C : Type} (ctx : Ctx C) : ENode → List Sheet
  | .mk e sh cs =>
    if e.isHTML then
      match sh with
      | some (sheets, content) =>
        sheets.filter (sheetOriginOk ctx) ++ sSeqL ctx content
      | none => []
    else []

/-- The same-origin shadow sheets collected by the `forEach` over a
pre-order descendant snapshot. -/
def sSeqL {C : Type} (ctx : Ctx C) : List ENode → List Sheet
  | [] => []
  | .mk e sh cs :: rest =>
    sSeqN ctx (.mk e sh cs) ++ sSeqL ctx cs ++ sSeqL ctx rest

end

mutual

/-- Master description of `#traverse` on one node: each engine index is the
fold of its insertion sequence, and nothing else changes. -/
theorem traverseNode_spec {C : Type} (ctx : Ctx C) :
    ∀ (g : Engine) (n : ENode),
      traverseNode ctx g n =
        { g with elements := foldAddU g.elements (eSeqN n),
                 observers := foldAddU g.observers (hSeqN n),
                 shadowRoots := foldAddU g.shadowRoots (hSeqN n),
                 shadowSheets := foldAddU g.shadowSheets (sSeqN ctx n) }
  | g, .mk e sh cs => by
    rcases sh with - | ⟨sheets, content⟩
    · by_cases hh : e.isHTML = true
      · simp only [traverseNode, eSeqN, hSeqN, sSeqN, hh, if_true]
        rfl
      · simp only [traverseNode, eSeqN, hSeqN, sSeqN, hh, if_false]
        rfl
    · by_cases hh : e.isHTML = true
      · simp only [traverseNode, eSeqN, hSeqN, sSeqN, hh, if_true]
        rw [travFlat_spec ctx _ content]
        simp only [foldAddU, List.foldl_append, List.foldl_cons]
      · simp only [traverseNode, eSeqN, hSeqN, sSeqN, hh, if_false]
        rfl

/-- Master description of the `forEach` traversal over a node list. -/
theorem travFlat_spec {C : Type} (ctx : Ctx C) :
    ∀ (g : Engine) (l : List ENode),
      travFlat ctx g l =
        { g with elements := foldAddU g.elements (eSeqL l),
                 observers := foldAddU g.observers (hSeqL l),
                 shadowRoots := foldAddU g.shadowRoots (hSeqL l),
                 shadowSheets := foldAddU g.shadowSheets (sSeqL ctx l) }
  | g, [] => by
    rw [travFlat]
    simp only [eSeqL, hSeqL, sSeqL]
    rfl
  | g, .mk e sh cs :: rest => by
    rw [travFlat]
    rw [traverseNode_spec ctx g (.mk e sh cs)]
    rw [travFlat_spec ctx _ cs]
    rw [travFlat_spec ctx _ rest]
    simp only [eSeqL, hSeqL, sSeqL, foldAddU, List.foldl_append]

end

/-- The hover-rule scan writes only the hover-rule index. -/
theorem getHover_frame {C : Type} (ctx : Ctx C) (g : Engine) :
    getHoverBorderColorRules ctx g =
      { g with hoverColorRules :=
          (getHoverBorderColorRules ctx g).hoverColorRules } := by
  rfl

/-- The membership set after `#walk`: the root (when an `HTMLElement`)
followed by the traversal's insertion sequence. -/
theorem walk_elements {C : Type} (ctx : Ctx C) (g : Engine) (root : ENode) :
    (walk ctx g root).elements =
      foldAddU
        (if root.el.isHTML then addU g.elements root.el.id else g.elements)
        (eSeqL (walkScope root)) := by
  simp only [walk]
  rw [travFlat_spec]
  split <;> split <;> rfl

/-- The observer registry after `#walk`: the old keys followed by the
traversal's host sequence. -/
theorem walk_observers {C : Type} (ctx : Ctx C) (g : Engine) (root : ENode) :
    (walk ctx g root).observers =
      foldAddU g.observers (hSeqL (walkScope root)) := by
  simp only [walk]
  rw [travFlat_spec]
  split <;> split <;> rfl

/-- `#walk` leaves the configuration and lifecycle fields unchanged. -/
theorem walk_frame {C : Type} (ctx : Ctx C) (g : Engine) (root : ENode) :
    (walk ctx g root).isEnabled = g.isEnabled ∧
    (walk ctx g root).sheetText = g.sheetText ∧
    (walk ctx g root).htmlFilterSet = g.htmlFilterSet ∧
    (walk ctx g root).pageRoot = g.pageRoot ∧
    (walk ctx g root).pageRootAlpha = g.pageRootAlpha ∧
    (walk ctx g root).observedRoot = g.observedRoot ∧
    (walk ctx g root).preserveHoverBorderColor = g.preserveHoverBorderColor ∧
    (walk ctx g root).backgroundColor = g.backgroundColor ∧
    (walk ctx g root).cssRules = g.cssRules := by
  simp only [walk]
  rw [travFlat_spec]
  split <;> split <;>
    first
      | (rw [getHover_frame]; simp)
      | simp

mutual

theorem mem_eSeqN_of_visited :
    ∀ (n m : ENode), m ∈ visitedN n → m.el.isHTML = true →
      m.el.id ∈ eSeqN n
  | .mk e none cs, m, hm, hh => by
    simp only [visitedN] at hm
    rcases List.mem_cons.mp hm with rfl | hm2
    · simp only [ENode.el] at hh
      simp only [eSeqN, ENode.el, hh, if_true]
      simp
    · by_cases hhe : e.isHTML = true <;> simp [hhe] at hm2
  | .mk e (some (sheets, content)) cs, m, hm, hh => by
    simp only [visitedN] at hm
    rcases List.mem_cons.mp hm with rfl | hm2
    · simp only [ENode.el] at hh
      simp only [eSeqN, ENode.el, hh, if_true]
      simp
    · by_cases hhe : e.isHTML = true
      · rw [if_pos hhe] at hm2
        have := mem_eSeqL_of_visited content m hm2 hh
        simp only [eSeqN, hhe, if_true]
        simp [this]
      · rw [if_neg hhe] at hm2
        simp at hm2

theorem mem_eSeqL_of_visited :
    ∀ (l : List ENode) (m : ENode), m ∈ visitedL l → m.el.isHTML = true →
      m.el.id ∈ eSeqL l
  | [], m, hm, hh => by simp [visitedL] at hm
  | .mk e sh cs :: rest, m, hm, hh => by
    simp only [visitedL] at hm
    simp only [eSeqL, List.mem_append]
    rcases List.mem_append.mp hm with hm1 | hm3
    · rcases List.mem_append.mp hm1 with hm1a | hm2
      · exact Or.inl (Or.inl (mem_eSeqN_of_visited _ m hm1a hh))
      · exact Or.inl (Or.inr (mem_eSeqL_of_visited cs m hm2 hh))
    · exact Or.inr (mem_eSeqL_of_visited rest m hm3 hh)

end

mutual

theorem mem_visited_of_hSeqN :
    ∀ (n : ENode) (i : Nat), i ∈ hSeqN n →
      ∃ m, m ∈ visitedN n ∧ m.el.id = i
  | .mk e none cs, i, hi => by
    simp only [hSeqN] at hi
    by_cases hhe : e.isHTML = true <;> simp [hhe] at hi
  | .mk e (some (sheets, content)) cs, i, hi => by
    simp only [hSeqN] at hi
    by_cases hhe : e.isHTML = true
    · rw [if_pos hhe] at hi
      rcases List.mem_cons.mp hi with rfl | hi2
      · exact ⟨.mk e (some (sheets, content)) cs, by simp [visitedN], rfl⟩
      · obtain ⟨m, hm, hid⟩ := mem_visited_of_hSeqL content i hi2
        refine ⟨m, ?_, hid⟩
        simp only [visitedN, hhe, if_true]
        simp [hm]
    · rw [if_neg hhe] at hi
      simp at hi

theorem mem_visited_of_hSeqL :
    ∀ (l : List ENode) (i : Nat), i ∈ hSeqL l →
      ∃ m, m ∈ visitedL l ∧ m.el.id = i
  | [], i, hi => by simp [hSeqL] at hi
  | .mk e sh cs :: rest, i, hi => by
    simp only [hSeqL, List.mem_append] at hi
    rcases hi with (hi1 | hi2) | hi3
    · obtain ⟨m, hm, hid⟩ := mem_visited_of_hSeqN (.mk e sh cs) i hi1
      exact ⟨m, by simp [visitedL, hm], hid⟩
    · obtain ⟨m, hm, hid⟩ := mem_visited_of_hSeqL cs i hi2
      exact ⟨m, by simp [visitedL, hm], hid⟩
    · obtain ⟨m, hm, hid⟩ := mem_visited_of_hSeqL rest i hi3
      exact ⟨m, by simp [visitedL, hm], hid⟩

end

/-- A host context fixture whose connectivity list covers the fixtures. -/
def ctx0 : Ctx (Int × ℚ) :=
  { cm := toyCm, conn := [0, 1, 2, 3, 4, 10, 11], docSheets := [],
    origin := "https://example.test" }

/-- A host context fixture in which no element is connected (a pass rooted
in a detached tree). -/
def ctxDet : Ctx (Int × ℚ) :=
  { cm := toyCm, conn := [], docSheets := [],
    origin := "https://example.test" }

/-- A tree fixture: the page root with a single `<script>` child, which
matches the filter set of `g0`. -/
def treeC6 : ENode := .mk rootEl none [.mk scriptEl none []]

/-- A `<span>` element living inside a shadow root. -/
def shadowChildEl : Elem :=
  { id := 10, tagName := "SPAN", isHTML := true, matchedBy := ["span"],
    inline := ⟨"", "", "", ""⟩,
    base := ⟨"basefg", "light", "basebd", "none"⟩,
    data := Dataset.empty }

/-- A `<div>` hosting a shadow root containing `shadowChildEl`. -/
def hostEl : Elem :=
  { id := 11, tagName := "DIV", isHTML := true, matchedBy := ["div"],
    inline := ⟨"", "", "", ""⟩,
    base := ⟨"basefg", "light", "basebd", "none"⟩,
    data := Dataset.empty }

/-- A tree fixture: the page root with one child hosting a shadow root. -/
def treeC7 : ENode :=
  .mk rootEl none [.mk hostEl (some ([], [.mk shadowChildEl none []])) []]

/-- Counterexample to claim C6 as stated: `#walk`/`#traverse` insert every
`HTMLElement` into the membership set with no filter check — a `<script>`
element matching the Filter Policy is inserted. -/
theorem C6_membership_counterexample :
    matchesFilter g0 scriptEl = true ∧
    scriptEl.id ∈ (walk ctx0 g0 treeC6).elements := by
  decide

/-- Claim C6 (amended): the re-index inserts every `HTMLElement` the
traversal visits into the membership set, regardless of the Filter Policy;
exclusion is enforced later, at transform time, where `#darken` leaves
matching elements untouched. -/
theorem C6_membership_amended {C : Type} (ctx : Ctx C) (g : Engine)
    (root : ENode) (m : ENode)
    (hm : m ∈ walkVisited root) (hh : m.el.isHTML = true) :
    m.el.id ∈ (walk ctx g root).elements := by
  rw [walk_elements, mem_foldAddU_iff]
  simp only [walkVisited] at hm
  rcases List.mem_cons.mp hm with rfl | hm2
  · left
    rw [if_pos hh]
    exact mem_addU_self _ _
  · right
    exact mem_eSeqL_of_visited _ m hm2 hh

/-- Witness for the amended C6 at a concrete input: the visited `<script>`
node ends up in the membership set. -/
theorem C6_membership_witness :
    ((ENode.mk scriptEl none []) ∈ walkVisited treeC6 ∧
      (ENode.mk scriptEl none []).el.isHTML = true) ∧
    (ENode.mk scriptEl none []).el.id ∈ (walk ctx0 g0 treeC6).elements :=
  ⟨⟨by decide, by decide⟩,
    C6_membership_amended ctx0 g0 treeC6 (ENode.mk scriptEl none [])
      (by decide) (by decide)⟩

theorem foldDarken_observers {C : Type} (cm : ColorMath C) :
    ∀ (l : List Nat) (gt : Engine × ENode),
      (l.foldl (darkenAt cm) gt).1.observers = gt.1.observers := by
  intro l
  induction l with
  | nil => intro gt; rfl
  | cons a l ih =>
    intro gt
    rw [List.foldl_cons, ih]
    unfold darkenAt
    rcases h : findElem gt.2 a with - | e
    · rfl
    · have hobs : (darken cm gt.1 e).1.observers = gt.1.observers := by
        rw [darken_engine_frame]
      exact hobs

/-- The observer registry after `#update`: the connected survivors of the
garbage collection followed by the hosts discovered by the re-index. -/
theorem update_observers {C : Type} (ctx : Ctx C) (g : Engine)
    (root : ENode) :
    (update ctx g root).1.observers =
      foldAddU (g.observers.filter (fun h => ctx.conn.contains h))
        (hSeqL (walkScope root)) := by
  simp only [update]
  rw [foldDarken_observers, walk_observers]
  rfl

/-- Counterexample to claim C7 as stated: a re-theme pass rooted in a
detached tree (the stale-callback scenario of the design notes) registers a
sub-tree observer whose host element is not connected to the document. -/
theorem C7_observer_counterexample :
    (update ctxDet g0 treeC7).1.observers = [11] ∧
    ctxDet.conn.contains 11 = false := by
  constructor
  · rw [update_observers]
    decide
  · decide

/-- Claim C7 (amended): after `disable()` the observer registry is empty
and the page observer is disconnected; and after a re-theme pass whose
visited elements are all attached to the document, every registered
sub-tree observer's host is attached (a pass rooted at a detached element —
the race flagged in the design notes — can register detached hosts). -/
theorem C7_observer_amended {C : Type} (ctx : Ctx C) (g : Engine)
    (root : ENode)
    (hconn : ∀ m ∈ walkVisited root, ctx.conn.contains m.el.id = true) :
    (∀ i ∈ (update ctx g root).1.observers, ctx.conn.contains i = true) ∧
    (disable ctx g root).1.observers = [] ∧
    (disable ctx g root).1.observedRoot = none := by
  refine ⟨?_, ?_, ?_⟩
  · intro i hi
    rw [update_observers] at hi
    rcases (mem_foldAddU_iff _ _ _).mp hi with h | h
    · exact (List.mem_filter.mp h).2
    · obtain ⟨m, hm, hid⟩ := mem_visited_of_hSeqL _ i h
      rw [← hid]
      exact hconn m (by simp [walkVisited, hm])
  · rfl
  · rfl

/-- Witness for the amended C7 at a concrete input: with every visited
element connected, the pass leaves only connected observer hosts, and
`disable()` leaves none. -/
theorem C7_observer_witness :
    (∀ m ∈ walkVisited treeC7, ctx0.conn.contains m.el.id = true) ∧
    (∀ i ∈ (update ctx0 g0 treeC7).1.observers,
      ctx0.conn.contains i = true) ∧
    (disable ctx0 g0 treeC7).1.observers = [] ∧
    (disable ctx0 g0 treeC7).1.observedRoot = none :=
  ⟨by decide, C7_observer_amended ctx0 g0 treeC7 (by decide)⟩

/-! ### Structural skeleton of a tree

`#darken` and `#undarken` rewrite only inline declarations and dataset
entries; identity, tag, kind, matched selectors, cascaded values and the
tree shape are untouched.  The *skeleton* forgets exactly the mutable
parts, so a re-theme pass preserves the skeleton — which is what makes a
second `enable()` pass re-index the same sets. -/

/-- Forget the engine-mutable parts of an element (inline declarations and
dataset), keeping identity, tag, kind, matched selectors and cascaded
values. -/
def skelElem (e : Elem) : Elem :=
  { id := e.id, tagName := e.tagName, isHTML := e.isHTML,
    matchedBy := e.matchedBy,
    inline := { color := "", backgroundColor := "", borderColor := "",
                backgroundImage := "" },
    base := e.base, data := Dataset.empty }

/-- The skeleton of a tree. -/
def skelN (t : ENode) : ENode := mapElemsN skelElem t

/-- The skeleton of a node list. -/
def skelL (l : List ENode) : List ENode := mapElemsL skelElem l

theorem skelN_def (t : ENode) : skelN t = mapElemsN skelElem t := rfl

theorem skelL_def (l : List ENode) : skelL l = mapElemsL skelElem l := rfl

theorem mapElemsN_el (f : Elem → Elem) : ∀ n : ENode,
    (mapElemsN f n).el = f n.el
  | .mk _ _ _ => rfl

mutual

theorem mapElemsN_comp (f h : Elem → Elem) :
    ∀ t : ENode, mapElemsN f (mapElemsN h t) = mapElemsN (fun e => f (h e)) t
  | .mk e none cs => by
    simp only [mapElemsN]
    rw [mapElemsL_comp f h cs]
  | .mk e (some (sheets, content)) cs => by
    simp only [mapElemsN]
    rw [mapElemsL_comp f h cs, mapElemsL_comp f h content]

theorem mapElemsL_comp (f h : Elem → Elem) :
    ∀ l : List ENode,
      mapElemsL f (mapElemsL h l) = mapElemsL (fun e => f (h e)) l
  | [] => rfl
  | n :: rest => by
    simp only [mapElemsL]
    rw [mapElemsN_comp f h n, mapElemsL_comp f h rest]

end

mutual

theorem allNodesN_map (f : Elem → Elem) :
    ∀ t : ENode, allNodesN (mapElemsN f t) = (allNodesN t).map (mapElemsN f)
  | .mk e none cs => by
    simp only [mapElemsN, allNodesN, List.map_cons, List.map_append]
    rw [allNodesL_map f cs]
    simp [mapElemsN]
  | .mk e (some (sheets, content)) cs => by
    simp only [mapElemsN, allNodesN, List.map_cons, List.map_append]
    rw [allNodesL_map f cs, allNodesL_map f content]

theorem allNodesL_map (f : Elem → Elem) :
    ∀ l : List ENode,
      allNodesL (mapElemsL f l) = (allNodesL l).map (mapElemsN f)
  | [] => rfl
  | n :: rest => by
    simp only [mapElemsL, allNodesL, List.map_append]
    rw [allNodesN_map f n, allNodesL_map f rest]

end

mutual

theorem mapElemsN_congr (f h : Elem → Elem) :
    ∀ t : ENode, (∀ n ∈ allNodesN t, f n.el = h n.el) →
      mapElemsN f t = mapElemsN h t
  | .mk e none cs, hp => by
    have he : f e = h e := hp (.mk e none cs) (by simp [allNodesN])
    simp only [mapElemsN]
    rw [he,
        mapElemsL_congr f h cs
          (fun m hm => hp m (by simp [allNodesN, ENode.el]; exact Or.inr hm))]
  | .mk e (some (sheets, content)) cs, hp => by
    have he : f e = h e :=
      hp (.mk e (some (sheets, content)) cs) (by simp [allNodesN])
    simp only [mapElemsN]
    rw [he,
        mapElemsL_congr f h cs
          (fun m hm => hp m
            (by simp [allNodesN, ENode.el]; exact Or.inr (Or.inl hm))),
        mapElemsL_congr f h content
          (fun m hm => hp m
            (by simp [allNodesN, ENode.el]; exact Or.inr (Or.inr hm)))]

theorem mapElemsL_congr (f h : Elem → Elem) :
    ∀ l : List ENode, (∀ n ∈ allNodesL l, f n.el = h n.el) →
      mapElemsL f l = mapElemsL h l
  | [], _ => rfl
  | n :: rest, hp => by
    simp only [mapElemsL]
    rw [mapElemsN_congr f h n (fun m hm => hp m (by simp [allNodesL, hm])),
        mapElemsL_congr f h rest
          (fun m hm => hp m (by simp [allNodesL, hm]))]

end

/-- The element ids of every node of a tree, in traversal order. -/
def treeIds (t : ENode) : List Nat :=
  (allNodesN t).map (fun n => n.el.id)

/-- Object identity in the model: no two distinct nodes of a real DOM tree
share an element object, so ids are pairwise distinct. -/
def uniqIds (t : ENode) : Prop := (treeIds t).Nodup

instance (t : ENode) : Decidable (uniqIds t) :=
  inferInstanceAs (Decidable (treeIds t).Nodup)

/-- Mapping an id-preserving function over the elements leaves the id list
unchanged. -/
theorem treeIds_mapElems (f : Elem → Elem) (hf : ∀ e, (f e).id = e.id)
    (t : ENode) : treeIds (mapElemsN f t) = treeIds t := by
  unfold treeIds
  rw [allNodesN_map, List.map_map]
  congr 1
  funext n
  simp only [Function.comp]
  rw [mapElemsN_el]
  exact hf n.el

/-- The skeleton has the same id list as the tree. -/
theorem treeIds_skel (t : ENode) : treeIds (skelN t) = treeIds t := by
  rw [skelN_def]
  exact treeIds_mapElems skelElem (fun e => rfl) t

/-- Trees with equal skeletons have the same id list, so uniqueness of ids
transfers between them. -/
theorem uniq_of_skel_eq {t1 t2 : ENode} (h : skelN t1 = skelN t2)
    (hu : uniqIds t2) : uniqIds t1 := by
  unfold uniqIds at *
  have hids : treeIds t1 = treeIds t2 := by
    rw [← treeIds_skel t1, ← treeIds_skel t2, h]
  rw [hids]
  exact hu

theorem find?_map_eq {α β : Type} (f : β → α) (p : α → Bool) :
    ∀ l : List β, (l.map f).find? p = (l.find? (fun b => p (f b))).map f
  | [] => rfl
  | a :: l => by
    simp only [List.map_cons, List.find?]
    by_cases h : p (f a) = true
    · simp [h]
    · simp [h, find?_map_eq f p l]

/-- A resolved member has the id it was looked up by. -/
theorem findElem_id {t : ENode} {i : Nat} {e : Elem}
    (hf : findElem t i = some e) : e.id = i := by
  unfold findElem at hf
  obtain ⟨n0, hfind, hel⟩ := Option.map_eq_some'.mp hf
  have hp : n0.el.id = i := by simpa using List.find?_some hfind
  rw [← hel]
  exact hp

/-- Membership lookup factors through the skeleton. -/
theorem findElem_skel (t : ENode) (i : Nat) :
    findElem (skelN t) i = (findElem t i).map skelElem := by
  unfold findElem
  rw [skelN_def, allNodesN_map, find?_map_eq, Option.map_map, Option.map_map]
  have hp : (fun b : ENode => decide ((mapElemsN skelElem b).el.id = i)) =
      (fun b : ENode => decide (b.el.id = i)) := by
    funext b
    rw [mapElemsN_el]
    rfl
  rw [hp]
  congr 1
  funext n
  simp only [Function.comp]
  rw [mapElemsN_el]

/-- With unique ids, the resolved member is the element state of *every*
node carrying that id. -/
theorem findElem_unique {t : ENode} {i : Nat} {e : Elem} (hu : uniqIds t)
    (hf : findElem t i = some e) :
    ∀ n ∈ allNodesN t, n.el.id = i → n.el = e := by
  intro n hn hni
  unfold findElem at hf
  obtain ⟨n0, hfind, hel⟩ := Option.map_eq_some'.mp hf
  have hmem0 := List.mem_of_find?_eq_some hfind
  have hid0 : n0.el.id = i := by simpa using List.find?_some hfind
  have huniq' : ((allNodesN t).map (fun n => n.el.id)).Nodup := hu
  have hnn0 : n = n0 :=
    List.inj_on_of_nodup_map huniq' hn hmem0 (by rw [hni, hid0])
  rw [hnn0, hel]

/-- Writing back, at a found id, an element with the same skeleton leaves
the tree's skeleton unchanged (unique ids pin the write to the found
node). -/
theorem setElemById_skel {t : ENode} {i : Nat} {e : Elem} (hu : uniqIds t)
    (hf : findElem t i = some e) {x : Elem} (hx : skelElem x = skelElem e) :
    skelN (setElemById t i x) = skelN t := by
  unfold setElemById
  rw [skelN_def, skelN_def, mapElemsN_comp]
  apply mapElemsN_congr
  intro n hn
  by_cases h : n.el.id = i
  · simp only [h, if_true, hx]
    rw [findElem_unique hu hf n hn h]
  · simp only [h, if_false]

/-- `#darken` preserves the element skeleton. -/
theorem skelElem_darken {C : Type} (cm : ColorMath C) (g : Engine)
    (el : Elem) : skelElem (darken cm g el).2 = skelElem el := by
  obtain ⟨h1, h2, h3, h4, h5⟩ := darken_elem_frame cm g el
  simp [skelElem, h1, h2, h3, h4, h5]

/-- Equal skeletons determine equal identity, tag, kind, matched selectors
and cascaded values. -/
theorem skelElem_fields {e1 e2 : Elem} (h : skelElem e1 = skelElem e2) :
    e1.id = e2.id ∧ e1.tagName = e2.tagName ∧ e1.isHTML = e2.isHTML ∧
    e1.matchedBy = e2.matchedBy ∧ e1.base = e2.base := by
  simpa [skelElem, Elem.mk.injEq] using h

/-- Filter matching depends only on an element's matched selectors. -/
theorem matchesFilter_matched (g : Engine) {e1 e2 : Elem}
    (h : e1.matchedBy = e2.matchedBy) :
    matchesFilter g e1 = matchesFilter g e2 := by
  unfold matchesFilter
  rw [h]

theorem mapElemsN_children (f : Elem → Elem) : ∀ n : ENode,
    (mapElemsN f n).children = mapElemsL f n.children
  | .mk _ _ _ => rfl

theorem eSeqL_cons : ∀ (n : ENode) (rest : List ENode),
    eSeqL (n :: rest) = eSeqN n ++ eSeqL n.children ++ eSeqL rest
  | .mk _ _ _, _ => rfl

theorem hSeqL_cons : ∀ (n : ENode) (rest : List ENode),
    hSeqL (n :: rest) = hSeqN n ++ hSeqL n.children ++ hSeqL rest
  | .mk _ _ _, _ => rfl

theorem sSeqL_cons {C : Type} (ctx : Ctx C) : ∀ (n : ENode)
    (rest : List ENode),
    sSeqL ctx (n :: rest) = sSeqN ctx n ++ sSeqL ctx n.children ++
      sSeqL ctx rest
  | .mk _ _ _, _ => rfl

mutual

theorem eSeqN_map (f : Elem → Elem) (hid : ∀ e, (f e).id = e.id)
    (hh : ∀ e, (f e).isHTML = e.isHTML) :
    ∀ t : ENode, eSeqN (mapElemsN f t) = eSeqN t
  | .mk e none cs => by
    simp only [mapElemsN, eSeqN, hid e, hh e]
  | .mk e (some (sheets, content)) cs => by
    simp only [mapElemsN, eSeqN, hid e, hh e]
    rw [eSeqL_map f hid hh content]

theorem eSeqL_map (f : Elem → Elem) (hid : ∀ e, (f e).id = e.id)
    (hh : ∀ e, (f e).isHTML = e.isHTML) :
    ∀ l : List ENode, eSeqL (mapElemsL f l) = eSeqL l
  | [] => rfl
  | .mk e sh cs :: rest => by
    rw [show mapElemsL f (ENode.mk e sh cs :: rest) =
          mapElemsN f (.mk e sh cs) :: mapElemsL f rest from rfl,
        eSeqL_cons (mapElemsN f (.mk e sh cs)) (mapElemsL f rest),
        eSeqL_cons (.mk e sh cs) rest,
        eSeqN_map f hid hh (.mk e sh cs),
        mapElemsN_children f (.mk e sh cs)]
    simp only [ENode.children]
    rw [eSeqL_map f hid hh cs, eSeqL_map f hid hh rest]

end

mutual

theorem hSeqN_map (f : Elem → Elem) (hid : ∀ e, (f e).id = e.id)
    (hh : ∀ e, (f e).isHTML = e.isHTML) :
    ∀ t : ENode, hSeqN (mapElemsN f t) = hSeqN t
  | .mk e none cs => by
    simp only [mapElemsN, hSeqN, hid e, hh e]
  | .mk e (some (sheets, content)) cs => by
    simp only [mapElemsN, hSeqN, hid e, hh e]
    rw [hSeqL_map f hid hh content]

theorem hSeqL_map (f : Elem → Elem) (hid : ∀ e, (f e).id = e.id)
    (hh : ∀ e, (f e).isHTML = e.isHTML) :
    ∀ l : List ENode, hSeqL (mapElemsL f l) = hSeqL l
  | [] => rfl
  | .mk e sh cs :: rest => by
    rw [show mapElemsL f (ENode.mk e sh cs :: rest) =
          mapElemsN f (.mk e sh cs) :: mapElemsL f rest from rfl,
        hSeqL_cons (mapElemsN f (.mk e sh cs)) (mapElemsL f rest),
        hSeqL_cons (.mk e sh cs) rest,
        hSeqN_map f hid hh (.mk e sh cs),
        mapElemsN_children f (.mk e sh cs)]
    simp only [ENode.children]
    rw [hSeqL_map f hid hh cs, hSeqL_map f hid hh rest]

end

mutual

theorem sSeqN_map {C : Type} (ctx : Ctx C) (f : Elem → Elem)
    (hh : ∀ e, (f e).isHTML = e.isHTML) :
    ∀ t : ENode, sSeqN ctx (mapElemsN f t) = sSeqN ctx t
  | .mk e none cs => by
    simp only [mapElemsN, sSeqN, hh e]
  | .mk e (some (sheets, content)) cs => by
    simp only [mapElemsN, sSeqN, hh e]
    rw [sSeqL_map ctx f hh content]

theorem sSeqL_map {C : Type} (ctx : Ctx C) (f : Elem → Elem)
    (hh : ∀ e, (f e).isHTML = e.isHTML) :
    ∀ l : List ENode, sSeqL ctx (mapElemsL f l) = sSeqL ctx l
  | [] => rfl
  | .mk e sh cs :: rest => by
    rw [show mapElemsL f (ENode.mk e sh cs :: rest) =
          mapElemsN f (.mk e sh cs) :: mapElemsL f rest from rfl,
        sSeqL_cons ctx (mapElemsN f (.mk e sh cs)) (mapElemsL f rest),
        sSeqL_cons ctx (.mk e sh cs) rest,
        sSeqN_map ctx f hh (.mk e sh cs),
        mapElemsN_children f (.mk e sh cs)]
    simp only [ENode.children]
    rw [sSeqL_map ctx f hh cs, sSeqL_map ctx f hh rest]

end

/-- Equal skeletons determine an equal walk scope skeleton and an equal
root element skeleton. -/
theorem walkScope_skel {t1 t2 : ENode} (h : skelN t1 = skelN t2) :
    skelL (walkScope t1) = skelL (walkScope t2) ∧
    skelElem t1.el = skelElem t2.el := by
  rcases t1 with ⟨e1, sh1, cs1⟩
  rcases t2 with ⟨e2, sh2, cs2⟩
  rw [skelN_def, skelN_def] at h
  rcases sh1 with - | ⟨s1, c1⟩ <;> rcases sh2 with - | ⟨s2, c2⟩
  · simp only [mapElemsN] at h
    injection h with he hsh hcs
    exact ⟨by simpa [walkScope, ENode.shadow, ENode.children, skelL_def]
      using hcs, he⟩
  · simp only [mapElemsN] at h
    injection h with he hsh hcs
    exact absurd hsh (by simp)
  · simp only [mapElemsN] at h
    injection h with he hsh hcs
    exact absurd hsh (by simp)
  · simp only [mapElemsN] at h
    injection h with he hsh hcs
    simp only [Option.some.injEq, Prod.mk.injEq] at hsh
    exact ⟨by simpa [walkScope, ENode.shadow, skelL_def] using hsh.2, he⟩

/-- Trees with equal skeletons are walked identically: same root id and
kind, and the same element, host and sheet insertion sequences. -/
theorem skel_seq_eq {C : Type} (ctx : Ctx C) {t1 t2 : ENode}
    (h : skelN t1 = skelN t2) :
    t1.el.id = t2.el.id ∧ t1.el.isHTML = t2.el.isHTML ∧
    eSeqL (walkScope t1) = eSeqL (walkScope t2) ∧
    hSeqL (walkScope t1) = hSeqL (walkScope t2) ∧
    sSeqL ctx (walkScope t1) = sSeqL ctx (walkScope t2) := by
  obtain ⟨hsl, he⟩ := walkScope_skel h
  obtain ⟨hid, -, hh, -, -⟩ := skelElem_fields he
  rw [skelL_def, skelL_def] at hsl
  refine ⟨hid, hh, ?_, ?_, ?_⟩
  · rw [← eSeqL_map skelElem (fun e => rfl) (fun e => rfl) (walkScope t1),
        ← eSeqL_map skelElem (fun e => rfl) (fun e => rfl) (walkScope t2), hsl]
  · rw [← hSeqL_map skelElem (fun e => rfl) (fun e => rfl) (walkScope t1),
        ← hSeqL_map skelElem (fun e => rfl) (fun e => rfl) (walkScope t2), hsl]
  · rw [← sSeqL_map ctx skelElem (fun e => rfl) (walkScope t1),
        ← sSeqL_map ctx skelElem (fun e => rfl) (walkScope t2), hsl]

theorem addU_eq_self_of_mem [DecidableEq α] {l : List α} {a : α}
    (h : a ∈ l) : addU l a = l := by
  unfold addU
  rw [if_pos h]

theorem foldAddU_eq_self_of_subset [DecidableEq α] :
    ∀ (s l : List α), (∀ a ∈ s, a ∈ l) → foldAddU l s = l
  | [], _, _ => rfl
  | a :: s, l, h => by
    show foldAddU (addU l a) s = l
    rw [addU_eq_self_of_mem (h a (by simp))]
    exact foldAddU_eq_self_of_subset s l (fun b hb => h b (by simp [hb]))

theorem filter_eq_self_of_all {α : Type} (p : α → Bool) :
    ∀ l : List α, (∀ a ∈ l, p a = true) → l.filter p = l
  | [], _ => rfl
  | a :: l, h => by
    rw [List.filter_cons, if_pos (h a (by simp)),
        filter_eq_self_of_all p l (fun b hb => h b (by simp [hb]))]

/-- An already-populated `#backgroundColor` cache is never overwritten by
the background policy. -/
theorem darkBgOf_bg_stable {C : Type} (cm : ColorMath C) (g : Engine)
    (t b : String) (h : g.backgroundColor ≠ "") : (darkBgOf cm g t b).1 = g := by
  simp only [darkBgOf]
  repeat' split
  all_goals simp_all

/-- With a populated cache, `#darken` leaves the whole engine unchanged. -/
theorem darken_bg_stable {C : Type} (cm : ColorMath C) (g : Engine)
    (el : Elem) (h : g.backgroundColor ≠ "") : (darken cm g el).1 = g := by
  by_cases hf : matchesFilter g el = true
  · rw [darken_filtered cm g el hf]
  · rw [Bool.not_eq_true] at hf
    rw [darken_engine_eq cm g el hf]
    exact darkBgOf_bg_stable cm g _ _ h

/-- `#darken` on a filtered element, or on one whose lowercased tag differs
from the page root's, leaves the engine unchanged. -/
theorem darken_engine_keep {C : Type} (cm : ColorMath C) (g : Engine)
    (el : Elem)
    (h : matchesFilter g el = true ∨
      toLowerStr el.tagName ≠ toLowerStr g.pageRoot.tagName) :
    (darken cm g el).1 = g := by
  by_cases hf : matchesFilter g el = true
  · rw [darken_filtered cm g el hf]
  · rcases h with h | ht
    · exact absurd h hf
    · rw [Bool.not_eq_true] at hf
      rw [darken_engine_eq cm g el hf]
      simp only [darkBgOf]
      rw [if_neg ht]
      split <;> rfl

/-- When `#darken` leaves the cache empty, it was empty before and the
element was filtered or not root-tagged (a root-tagged, unfiltered element
would have cached the non-empty serialized dark background). -/
theorem darken_bg_empty {C : Type} (cm : ColorMath C)
    (htox : ∀ c, cm.toHex c ≠ "") (g : Engine) (el : Elem)
    (h : (darken cm g el).1.backgroundColor = "") :
    matchesFilter g el = true ∨
      toLowerStr el.tagName ≠ toLowerStr g.pageRoot.tagName := by
  by_cases hf : matchesFilter g el = true
  · exact Or.inl hf
  · rw [Bool.not_eq_true] at hf
    rw [darken_engine_eq cm g el hf] at h
    by_cases ht : toLowerStr el.tagName = toLowerStr g.pageRoot.tagName
    · exfalso
      simp only [darkBgOf] at h
      rw [if_pos ht] at h
      by_cases hbg : g.backgroundColor = ""
      · rw [if_pos hbg] at h
        exact htox _ h
      · rw [if_neg hbg] at h
        exact hbg h
    · exact Or.inr ht

/-- One `forEach` theming step only ever writes the cache field of the
engine. -/
theorem darkenAt_frame {C : Type} (cm : ColorMath C) (gt : Engine × ENode)
    (a : Nat) :
    ∃ b, (darkenAt cm gt a).1 = { gt.1 with backgroundColor := b } := by
  unfold darkenAt
  rcases h : findElem gt.2 a with - | e
  · exact ⟨gt.1.backgroundColor, rfl⟩
  · exact ⟨(darken cm gt.1 e).1.backgroundColor, darken_engine_frame cm gt.1 e⟩

/-- One `forEach` theming step preserves the tree skeleton (with unique
ids, the write-back only replaces the resolved element's mutable state). -/
theorem darkenAt_skel {C : Type} (cm : ColorMath C) (gt : Engine × ENode)
    (a : Nat) (hu : uniqIds gt.2) :
    skelN (darkenAt cm gt a).2 = skelN gt.2 := by
  unfold darkenAt
  rcases h : findElem gt.2 a with - | e
  · rfl
  · exact setElemById_skel hu h (skelElem_darken cm gt.1 e)

/-- The whole theming `forEach` only ever writes the cache field of the
engine. -/
theorem foldDarken_frame {C : Type} (cm : ColorMath C) :
    ∀ (l : List Nat) (gt : Engine × ENode),
      ∃ b, (l.foldl (darkenAt cm) gt).1 = { gt.1 with backgroundColor := b } := by
  intro l
  induction l with
  | nil => intro gt; exact ⟨gt.1.backgroundColor, rfl⟩
  | cons a l ih =>
    intro gt
    obtain ⟨b1, h1⟩ := darkenAt_frame cm gt a
    obtain ⟨b2, h2⟩ := ih (darkenAt cm gt a)
    refine ⟨b2, ?_⟩
    rw [List.foldl_cons, h2, h1]

/-- The whole theming `forEach` preserves the tree skeleton. -/
theorem foldDarken_skel {C : Type} (cm : ColorMath C) :
    ∀ (l : List Nat) (gt : Engine × ENode), uniqIds gt.2 →
      skelN (l.foldl (darkenAt cm) gt).2 = skelN gt.2 := by
  intro l
  induction l with
  | nil => intro gt _; rfl
  | cons a l ih =>
    intro gt hu
    have hs := darkenAt_skel cm gt a hu
    have hu' : uniqIds (darkenAt cm gt a).2 := uniq_of_skel_eq hs hu
    rw [List.foldl_cons, ih (darkenAt cm gt a) hu', hs]

/-- With a populated cache the whole theming `forEach` leaves the engine
unchanged. -/
theorem foldDarken_engine_stable {C : Type} (cm : ColorMath C) :
    ∀ (l : List Nat) (gt : Engine × ENode), gt.1.backgroundColor ≠ "" →
      (l.foldl (darkenAt cm) gt).1 = gt.1 := by
  intro l
  induction l with
  | nil => intro gt _; rfl
  | cons a l ih =>
    intro gt h
    have hstep : (darkenAt cm gt a).1 = gt.1 := by
      unfold darkenAt
      rcases hf : findElem gt.2 a with - | e
      · rfl
      · exact darken_bg_stable cm gt.1 e h
    rw [List.foldl_cons, ih (darkenAt cm gt a) (by rw [hstep]; exact h), hstep]

/-- Membership lookup in skeleton-equal trees resolves to skeleton-equal
elements. -/
theorem findElem_of_skel_eq {t1 t2 : ENode} (h : skelN t1 = skelN t2)
    {i : Nat} {e2 : Elem} (hf : findElem t2 i = some e2) :
    ∃ e1, findElem t1 i = some e1 ∧ skelElem e1 = skelElem e2 := by
  have h1 := findElem_skel t1 i
  rw [h, findElem_skel t2 i, hf] at h1
  exact Option.map_eq_some'.mp h1.symm

/-- The "filtered or not root-tagged" property of a member transfers
between skeleton-equal trees (it reads only skeleton data). -/
theorem filterTag_transfer {g : Engine} {t1 t2 : ENode}
    (h : skelN t1 = skelN t2) {i : Nat}
    (hp : ∀ e, findElem t2 i = some e →
      matchesFilter g e = true ∨
      toLowerStr e.tagName ≠ toLowerStr g.pageRoot.tagName) :
    ∀ e, findElem t1 i = some e →
      matchesFilter g e = true ∨
      toLowerStr e.tagName ≠ toLowerStr g.pageRoot.tagName := by
  intro e hf
  obtain ⟨e2, hf2, hsk⟩ := findElem_of_skel_eq h.symm hf
  obtain ⟨-, htag, -, hmb, -⟩ := skelElem_fields hsk
  rcases hp e2 hf2 with hcase | hcase
  · left
    rw [matchesFilter_matched g hmb] at hcase
    exact hcase
  · right
    rw [htag] at hcase
    exact hcase

/-- When a theming pass ends with an empty cache, every member it resolved
was filtered or not root-tagged (otherwise the pass would have cached a
non-empty serialized background). -/
theorem foldDarken_bg_empty {C : Type} (cm : ColorMath C)
    (htox : ∀ c, cm.toHex c ≠ "") :
    ∀ (l : List Nat) (gt : Engine × ENode), uniqIds gt.2 →
      (l.foldl (darkenAt cm) gt).1.backgroundColor = "" →
      ∀ i ∈ l, ∀ e, findElem gt.2 i = some e →
        matchesFilter gt.1 e = true ∨
        toLowerStr e.tagName ≠ toLowerStr gt.1.pageRoot.tagName := by
  intro l
  induction l with
  | nil => intro gt _ _ i hi; simp at hi
  | cons a l ih =>
    intro gt hu hB i hi e hf
    rw [List.foldl_cons] at hB
    have hstep_skel : skelN (darkenAt cm gt a).2 = skelN gt.2 :=
      darkenAt_skel cm gt a hu
    have hu' : uniqIds (darkenAt cm gt a).2 := uniq_of_skel_eq hstep_skel hu
    obtain ⟨b1, hb1⟩ := darkenAt_frame cm gt a
    have hB' : (darkenAt cm gt a).1.backgroundColor = "" := by
      by_contra hne
      rw [foldDarken_engine_stable cm l _ hne] at hB
      exact hne hB
    rcases List.mem_cons.mp hi with rfl | hil
    · have hB2 : (darken cm gt.1 e).1.backgroundColor = "" := by
        unfold darkenAt at hB'
        rw [hf] at hB'
        exact hB'
      exact darken_bg_empty cm htox gt.1 e hB2
    · have hprop := ih (darkenAt cm gt a) hu' hB i hil
      have hcase := (filterTag_transfer hstep_skel.symm hprop) e hf
      rw [hb1] at hcase
      exact hcase

/-- A theming pass all of whose resolvable members are filtered or not
root-tagged leaves the engine completely unchanged. -/
theorem foldDarken_engine_id {C : Type} (cm : ColorMath C) :
    ∀ (l : List Nat) (gt : Engine × ENode), uniqIds gt.2 →
      (∀ i ∈ l, ∀ e, findElem gt.2 i = some e →
        matchesFilter gt.1 e = true ∨
        toLowerStr e.tagName ≠ toLowerStr gt.1.pageRoot.tagName) →
      (l.foldl (darkenAt cm) gt).1 = gt.1 := by
  intro l
  induction l with
  | nil => intro gt _ _; rfl
  | cons a l ih =>
    intro gt hu hp
    have hstep : (darkenAt cm gt a).1 = gt.1 := by
      unfold darkenAt
      rcases h : findElem gt.2 a with - | e
      · rfl
      · exact darken_engine_keep cm gt.1 e (hp a (by simp) e h)
    have hskel := darkenAt_skel cm gt a hu
    have hu' := uniq_of_skel_eq hskel hu
    have hp' : ∀ i ∈ l, ∀ e, findElem (darkenAt cm gt a).2 i = some e →
        matchesFilter (darkenAt cm gt a).1 e = true ∨
        toLowerStr e.tagName ≠
          toLowerStr (darkenAt cm gt a).1.pageRoot.tagName := by
      intro i hil e hf
      have hres := filterTag_transfer hskel (hp i (by simp [hil])) e hf
      rw [hstep]
      exact hres
    rw [List.foldl_cons, ih (darkenAt cm gt a) hu' hp', hstep]

/-- The untheming `forEach` never touches the engine (each step only
rewrites the element's inline state). -/
theorem foldUndarken_engine :
    ∀ (l : List Nat) (gt : Engine × ENode),
      (l.foldl undarkenAt gt).1 = gt.1 := by
  intro l
  induction l with
  | nil => intro gt; rfl
  | cons a l ih =>
    intro gt
    rw [List.foldl_cons, ih]
    unfold undarkenAt
    rcases h : findElem gt.2 a with - | e <;> rfl

/-- Engine states are equal when all fourteen fields agree. -/
theorem engine_eq_of_fields (a b : Engine)
    (h1 : a.isEnabled = b.isEnabled) (h2 : a.sheetText = b.sheetText)
    (h3 : a.elements = b.elements) (h4 : a.observers = b.observers)
    (h5 : a.shadowRoots = b.shadowRoots)
    (h6 : a.shadowSheets = b.shadowSheets)
    (h7 : a.hoverColorRules = b.hoverColorRules)
    (h8 : a.htmlFilterSet = b.htmlFilterSet) (h9 : a.pageRoot = b.pageRoot)
    (h10 : a.pageRootAlpha = b.pageRootAlpha)
    (h11 : a.observedRoot = b.observedRoot)
    (h12 : a.preserveHoverBorderColor = b.preserveHoverBorderColor)
    (h13 : a.backgroundColor = b.backgroundColor)
    (h14 : a.cssRules = b.cssRules) : a = b := by
  cases a
  cases b
  simp_all

/-- The shadow-root registry after `#walk`. -/
theorem walk_shadowRoots {C : Type} (ctx : Ctx C) (g : Engine)
    (root : ENode) :
    (walk ctx g root).shadowRoots =
      foldAddU g.shadowRoots (hSeqL (walkScope root)) := by
  simp only [walk]
  rw [travFlat_spec]
  split <;> split <;> rfl

/-- The collected shadow sheets after `#walk`. -/
theorem walk_shadowSheets {C : Type} (ctx : Ctx C) (g : Engine)
    (root : ENode) :
    (walk ctx g root).shadowSheets =
      foldAddU g.shadowSheets (sSeqL ctx (walkScope root)) := by
  simp only [walk]
  rw [travFlat_spec]
  split <;> split <;> rfl

/-- The hover-rule map computation of `#getHoverBorderColorRules`, as a
function of the same-origin sheets in scope and the map being extended. -/
def hoverOut {C : Type} (ctx : Ctx C) (sheets : List Sheet)
    (m0 : List (String × Rule)) : List (String × Rule) :=
  (((ctx.docSheets ++ sheets).filter (sheetOriginOk ctx)).flatMap
    (fun sheet =>
      ((sheet.rules.filter Rule.isStyleOrMedia).flatMap styleEntries).filter
        (fun e => containsSub e.1 ":hover" && containsSub e.2.1 "border"))).foldl
    (fun m e => mapSet m e.1 e.2.2) m0

theorem getHover_hoverOut {C : Type} (ctx : Ctx C) (g : Engine) :
    getHoverBorderColorRules ctx g =
      { g with hoverColorRules :=
          hoverOut ctx g.shadowSheets g.hoverColorRules } := rfl

/-- The hover-rule index after `#walk`: rebuilt from the document sheets
and the shadow sheets in scope when the preserve option is set, untouched
otherwise. -/
theorem walk_hoverColorRules {C : Type} (ctx : Ctx C) (g : Engine)
    (root : ENode) :
    (walk ctx g root).hoverColorRules =
      (if g.preserveHoverBorderColor = true then
        hoverOut ctx (foldAddU g.shadowSheets (sSeqL ctx (walkScope root)))
          g.hoverColorRules
       else g.hoverColorRules) := by
  simp only [walk]
  split <;> rw [travFlat_spec] <;> split <;>
    first
      | (rw [getHover_hoverOut]; rfl)
      | rfl

/-- Two `#update`-style re-indexes — a `#clear` followed by a `#walk` —
starting from engines that agree on every configuration field (the cache
aside) and from skeleton-equal roots produce the same engine, up to the
carried-over cache value. -/
theorem walk_eq_cleared {C : Type} (ctx : Ctx C) (gA gB : Engine)
    (tA tB : ENode)
    (hen : gA.isEnabled = gB.isEnabled)
    (hst : gA.sheetText = gB.sheetText)
    (hobs : foldAddU (gA.observers.filter (fun h => ctx.conn.contains h))
        (hSeqL (walkScope tA)) =
      foldAddU (gB.observers.filter (fun h => ctx.conn.contains h))
        (hSeqL (walkScope tB)))
    (hfs : gA.htmlFilterSet = gB.htmlFilterSet)
    (hpr : gA.pageRoot = gB.pageRoot)
    (hpa : gA.pageRootAlpha = gB.pageRootAlpha)
    (hor : gA.observedRoot = gB.observedRoot)
    (hph : gA.preserveHoverBorderColor = gB.preserveHoverBorderColor)
    (hcss : gA.cssRules = gB.cssRules)
    (hskel : skelN tA = skelN tB) :
    walk ctx (clear ctx gA) tA =
      { walk ctx (clear ctx gB) tB with
          backgroundColor := gA.backgroundColor } := by
  obtain ⟨hid, hh, he, hhs, hss⟩ := skel_seq_eq ctx hskel
  obtain ⟨a1, a2, a3, a4, a5, a6, a7, a8, a9⟩ :=
    walk_frame ctx (clear ctx gA) tA
  obtain ⟨b1, b2, b3, b4, b5, b6, b7, b8, b9⟩ :=
    walk_frame ctx (clear ctx gB) tB
  apply engine_eq_of_fields
  · show (walk ctx (clear ctx gA) tA).isEnabled =
      (walk ctx (clear ctx gB) tB).isEnabled
    rw [a1, b1]
    simp only [clear]
    exact hen
  · show (walk ctx (clear ctx gA) tA).sheetText =
      (walk ctx (clear ctx gB) tB).sheetText
    rw [a2, b2]
    simp only [clear]
    exact hst
  · show (walk ctx (clear ctx gA) tA).elements =
      (walk ctx (clear ctx gB) tB).elements
    rw [walk_elements, walk_elements]
    simp only [clear]
    rw [he, hid, hh]
  · show (walk ctx (clear ctx gA) tA).observers =
      (walk ctx (clear ctx gB) tB).observers
    rw [walk_observers, walk_observers]
    simp only [clear]
    exact hobs
  · show (walk ctx (clear ctx gA) tA).shadowRoots =
      (walk ctx (clear ctx gB) tB).shadowRoots
    rw [walk_shadowRoots, walk_shadowRoots]
    simp only [clear]
    rw [hhs]
  · show (walk ctx (clear ctx gA) tA).shadowSheets =
      (walk ctx (clear ctx gB) tB).shadowSheets
    rw [walk_shadowSheets, walk_shadowSheets]
    simp only [clear]
    rw [hss]
  · show (walk ctx (clear ctx gA) tA).hoverColorRules =
      (walk ctx (clear ctx gB) tB).hoverColorRules
    rw [walk_hoverColorRules, walk_hoverColorRules]
    simp only [clear]
    rw [hph, hss]
  · show (walk ctx (clear ctx gA) tA).htmlFilterSet =
      (walk ctx (clear ctx gB) tB).htmlFilterSet
    rw [a3, b3]
    simp only [clear]
    exact hfs
  · show (walk ctx (clear ctx gA) tA).pageRoot =
      (walk ctx (clear ctx gB) tB).pageRoot
    rw [a4, b4]
    simp only [clear]
    exact hpr
  · show (walk ctx (clear ctx gA) tA).pageRootAlpha =
      (walk ctx (clear ctx gB) tB).pageRootAlpha
    rw [a5, b5]
    simp only [clear]
    exact hpa
  · show (walk ctx (clear ctx gA) tA).observedRoot =
      (walk ctx (clear ctx gB) tB).observedRoot
    rw [a6, b6]
    simp only [clear]
    exact hor
  · show (walk ctx (clear ctx gA) tA).preserveHoverBorderColor =
      (walk ctx (clear ctx gB) tB).preserveHoverBorderColor
    rw [a7, b7]
    simp only [clear]
    exact hph
  · show (walk ctx (clear ctx gA) tA).backgroundColor = gA.backgroundColor
    rw [a8]
    simp only [clear]
  · show (walk ctx (clear ctx gA) tA).cssRules =
      (walk ctx (clear ctx gB) tB).cssRules
    rw [a9, b9]
    simp only [clear]
    exact hcss

/-- The engine after `disable()`: every lifecycle field reset and every
index emptied, with only the configuration fields surviving. -/
theorem disable_engine {C : Type} (ctx : Ctx C) (g : Engine) (root : ENode) :
    (disable ctx g root).1 =
      { isEnabled := false, sheetText := "", elements := [], observers := [],
        shadowRoots := [], shadowSheets := [], hoverColorRules := [],
        htmlFilterSet := g.htmlFilterSet, pageRoot := g.pageRoot,
        pageRootAlpha := g.pageRootAlpha, observedRoot := none,
        preserveHoverBorderColor := g.preserveHoverBorderColor,
        backgroundColor := "", cssRules := g.cssRules } := by
  obtain ⟨w1, w2, w3, w4, w5, w6, w7, w8, w9⟩ :=
    walk_frame ctx { g with isEnabled := false } root
  have hd : (disable ctx g root).1 =
      clear ctx
        { walk ctx { g with isEnabled := false } root with
            sheetText := "", backgroundColor := "", observedRoot := none,
            observers := [] } := by
    simp only [disable]
    rw [foldUndarken_engine]
  rw [hd]
  apply engine_eq_of_fields <;>
    simp [clear, w1, w2, w3, w4, w5, w6, w7, w8, w9]

/-- A second `disable()` on the already-disabled engine state returns the
same engine state. -/
theorem disable_idem {C : Type} (ctx : Ctx C) (g : Engine) (root : ENode) :
    (disable ctx (disable ctx g root).1 (disable ctx g root).2).1 =
      (disable ctx g root).1 := by
  rw [disable_engine ctx (disable ctx g root).1 (disable ctx g root).2,
      disable_engine ctx g root]

/-- The flag-setting prefix of `enable` (lines 425–427): set the enabled
flag, bind the page observer to the page root, populate the constructed
sheet. -/
def enableGf (g : Engine) : Engine :=
  { g with isEnabled := true, observedRoot := some g.pageRoot.id,
           sheetText := g.cssRules }

theorem enable_eq {C : Type} (ctx : Ctx C) (g : Engine) (root : ENode) :
    enable ctx g root = update ctx (enableGf g) root := rfl

theorem update_eq {C : Type} (ctx : Ctx C) (g : Engine) (root : ENode) :
    update ctx g root =
      (walk ctx (clear ctx g) root).elements.foldl (darkenAt ctx.cm)
        (walk ctx (clear ctx g) root, root) := rfl

/-- A second `enable()` on the already-enabled engine state and themed tree
returns the same engine state, provided element identities are unique, the
color serializer never returns an empty string (true of `colord`), and the
re-themed scope is attached to the document. -/
theorem enable_idem {C : Type} (ctx : Ctx C) (g : Engine) (root : ENode)
    (huniq : uniqIds root)
    (htox : ∀ c, ctx.cm.toHex c ≠ "")
    (hconn : ∀ m ∈ walkVisited root, ctx.conn.contains m.el.id = true) :
    (enable ctx (enable ctx g root).1 (enable ctx g root).2).1 =
      (enable ctx g root).1 := by
  simp only [enable_eq, update_eq]
  set gW1 := walk ctx (clear ctx (enableGf g)) root with hgW1
  set E1 := gW1.elements.foldl (darkenAt ctx.cm) (gW1, root) with hE1
  obtain ⟨a1, a2, a3, a4, a5, a6, a7, a8, a9⟩ :=
    walk_frame ctx (clear ctx (enableGf g)) root
  have hskel1 : skelN E1.2 = skelN root :=
    foldDarken_skel ctx.cm gW1.elements (gW1, root) huniq
  have hu1 : uniqIds E1.2 := uniq_of_skel_eq hskel1 huniq
  obtain ⟨B1, hB1⟩ : ∃ b, E1.1 = { gW1 with backgroundColor := b } :=
    foldDarken_frame ctx.cm gW1.elements (gW1, root)
  have hEbg : E1.1.backgroundColor = B1 := by rw [hB1]
  have hEcss : E1.1.cssRules = g.cssRules := by
    rw [hB1]
    show gW1.cssRules = g.cssRules
    rw [hgW1, a9]
    rfl
  have hEfs : E1.1.htmlFilterSet = g.htmlFilterSet := by
    rw [hB1]
    show gW1.htmlFilterSet = g.htmlFilterSet
    rw [hgW1, a3]
    rfl
  have hEpr : E1.1.pageRoot = g.pageRoot := by
    rw [hB1]
    show gW1.pageRoot = g.pageRoot
    rw [hgW1, a4]
    rfl
  have hEpa : E1.1.pageRootAlpha = g.pageRootAlpha := by
    rw [hB1]
    show gW1.pageRootAlpha = g.pageRootAlpha
    rw [hgW1, a5]
    rfl
  have hEph : E1.1.preserveHoverBorderColor = g.preserveHoverBorderColor := by
    rw [hB1]
    show gW1.preserveHoverBorderColor = g.preserveHoverBorderColor
    rw [hgW1, a7]
    rfl
  have hoconn : ∀ i ∈ gW1.observers, ctx.conn.contains i = true := by
    intro i hi
    rw [hgW1, walk_observers] at hi
    rcases (mem_foldAddU_iff _ _ _).mp hi with hmem | hmem
    · have hmem' : i ∈ (enableGf g).observers.filter
          (fun h => ctx.conn.contains h) := hmem
      exact (List.mem_filter.mp hmem').2
    · obtain ⟨m, hmv, hid⟩ := mem_visited_of_hSeqL _ i hmem
      rw [← hid]
      exact hconn m (by
        unfold walkVisited
        exact List.mem_cons.mpr (Or.inr hmv))
  have hobs_eq : foldAddU ((enableGf E1.1).observers.filter
        (fun h => ctx.conn.contains h)) (hSeqL (walkScope E1.2)) =
      foldAddU ((enableGf g).observers.filter
        (fun h => ctx.conn.contains h)) (hSeqL (walkScope root)) := by
    obtain ⟨-, -, -, hhs, -⟩ := skel_seq_eq ctx hskel1
    rw [hhs]
    have hser : (enableGf E1.1).observers = gW1.observers := by
      show E1.1.observers = gW1.observers
      rw [hB1]
    rw [hser, filter_eq_self_of_all _ _ hoconn]
    have habs : foldAddU gW1.observers (hSeqL (walkScope root)) =
        gW1.observers := by
      apply foldAddU_eq_self_of_subset
      intro a ha
      rw [hgW1, walk_observers]
      exact (mem_foldAddU_iff _ _ _).mpr (Or.inr ha)
    rw [habs, hgW1, walk_observers]
    rfl
  have hmain : walk ctx (clear ctx (enableGf E1.1)) E1.2 =
      { gW1 with backgroundColor := (enableGf E1.1).backgroundColor } := by
    have h := walk_eq_cleared ctx (enableGf E1.1) (enableGf g) E1.2 root
      rfl hEcss hobs_eq hEfs hEpr hEpa
      (by
        show some E1.1.pageRoot.id = some g.pageRoot.id
        rw [hEpr])
      hEph hEcss hskel1
    rw [← hgW1] at h
    exact h
  rw [hmain]
  have hc : (enableGf E1.1).backgroundColor = B1 := by
    show E1.1.backgroundColor = B1
    rw [hB1]
  rw [hc, hB1]
  by_cases hBe : B1 = ""
  · have hpass1 := foldDarken_bg_empty ctx.cm htox gW1.elements (gW1, root)
      huniq
      (by
        show E1.1.backgroundColor = ""
        rw [hEbg]
        exact hBe)
    apply foldDarken_engine_id ctx.cm
    · exact hu1
    · intro i hi e hf
      have hres := filterTag_transfer hskel1 (hpass1 i hi) e hf
      exact hres
  · apply foldDarken_engine_stable ctx.cm
    show ({ gW1 with backgroundColor := B1 }).backgroundColor ≠ ""
    exact hBe

theorem append_ne_empty_left {s t : String} (h : s ≠ "") : s ++ t ≠ "" := by
  intro he
  apply h
  have hd := congrArg String.data he
  rw [String.data_append] at hd
  have h2 : s.data = [] := (List.append_eq_nil.mp (by simpa using hd)).1
  exact String.ext (by simp [h2])

/-- The toy oracle's serializer never returns an empty string (as `colord`'s
`toHex()` never does). -/
theorem toyToHex_ne (c : Int × ℚ) : toyCm.toHex c ≠ "" := by
  have h : ((("#" ++ toString c.1) ++ "/") ++
      (if c.2 = 1 then "o" else if c.2 = 0 then "t" else "p")) ≠ "" :=
    append_ne_empty_left (append_ne_empty_left
      (append_ne_empty_left (by decide)))
  exact h

/-- Claim C8: calling `enable()` while already enabled, or `disable()`
while already disabled, is safe and leaves the engine in the same state as
a single call (idempotent at the state level), merely re-running the
traversal/transform cost.  Modeling hypotheses: element identities in the
tree are unique (object identity in a real DOM), the color serializer
never returns an empty string (true of `colord.toHex()`), and the walked
scope is attached to the document (else the observer garbage collection
interferes, the race of the design notes). -/
theorem C8_lifecycle_idempotent {C : Type} (ctx : Ctx C) (g : Engine)
    (root : ENode)
    (huniq : uniqIds root)
    (htox : ∀ c, ctx.cm.toHex c ≠ "")
    (hconn : ∀ m ∈ walkVisited root, ctx.conn.contains m.el.id = true) :
    (enable ctx (enable ctx g root).1 (enable ctx g root).2).1 =
      (enable ctx g root).1 ∧
    (disable ctx (disable ctx g root).1 (disable ctx g root).2).1 =
      (disable ctx g root).1 :=
  ⟨enable_idem ctx g root huniq htox hconn, disable_idem ctx g root⟩

/-- Witness for C8 at a concrete input: on the shadow-hosting fixture tree
with every element attached, re-running `enable()` or `disable()` returns
the same engine state. -/
theorem C8_lifecycle_witness :
    uniqIds treeC7 ∧ (∀ c, ctx0.cm.toHex c ≠ "") ∧
    (∀ m ∈ walkVisited treeC7, ctx0.conn.contains m.el.id = true) ∧
    ((enable ctx0 (enable ctx0 g0 treeC7).1 (enable ctx0 g0 treeC7).2).1 =
        (enable ctx0 g0 treeC7).1 ∧
      (disable ctx0 (disable ctx0 g0 treeC7).1 (disable ctx0 g0 treeC7).2).1 =
        (disable ctx0 g0 treeC7).1) :=
  ⟨by decide, fun c => toyToHex_ne c, by decide,
    C8_lifecycle_idempotent ctx0 g0 treeC7 (by decide)
      (fun c => toyToHex_ne c) (by decide)⟩
